import Mathlib

/-!
Verification development for the Tech-Product-Cost-Analyser repository
(`app.py`).  The Python program is shallowly embedded: Python floats are
modelled as exact rationals (`ℚ`) with an explicit round-half-to-even
`round2` for Python's `round(x, 2)`; JSON values are an inductive `Json`;
code that can raise an exception returns `Option`, with `none` marking a
raised exception.  Rational arithmetic inside executable definitions is
written with `mkRat`-based helpers (`qAdd`, `qMul`, ...) that are proved
equal to the ordinary field operations below, so that every definition
evaluates by kernel reduction.  Modelling boundaries, stated once here:
character classes (`\d`, `\s`, `str.lower`) are modelled over ASCII;
float overflow to infinity, `nan`, and underscore digit separators are
not modelled; `round` is modelled with exact decimal semantics (binary
representation artifacts of IEEE floats are not modelled).
-/

/-- Sum of two rationals, written with `mkRat` so that it evaluates by
kernel reduction; equal to `a + b` by `qAdd_eq`. -/
def qAdd (a b : ℚ) : ℚ := mkRat (a.num * b.den + b.num * a.den) (a.den * b.den)

/-- Difference of two rationals in `mkRat` form; equal to `a - b`. -/
def qSub (a b : ℚ) : ℚ := mkRat (a.num * b.den - b.num * a.den) (a.den * b.den)

/-- Product of two rationals in `mkRat` form; equal to `a * b`. -/
def qMul (a b : ℚ) : ℚ := mkRat (a.num * b.num) (a.den * b.den)

/-- Quotient of a rational by a natural number in `mkRat` form; equal to
`a / n`. -/
def qDivN (a : ℚ) (n : ℕ) : ℚ := mkRat a.num (a.den * n)

/-- Product of a rational and a natural number in `mkRat` form. -/
def qMulN (a : ℚ) (n : ℕ) : ℚ := mkRat (a.num * n) a.den

/-- Product of a rational and an integer in `mkRat` form. -/
def qMulZ (a : ℚ) (z : ℤ) : ℚ := mkRat (a.num * z) a.den

/-- The rational of an integer in `mkRat` form. -/
def qOfInt (z : ℤ) : ℚ := mkRat z 1

/-- The rational of a natural number in `mkRat` form. -/
def qOfNat (n : ℕ) : ℚ := mkRat n 1

/-- The rational `10 ^ k` in `mkRat` form. -/
def qPow10 (k : ℕ) : ℚ := mkRat (10 ^ k : ℕ) 1

theorem qAdd_eq (a b : ℚ) : qAdd a b = a + b := by
  unfold qAdd
  rw [Rat.mkRat_eq_divInt, Rat.divInt_eq_div]
  conv_rhs => rw [← Rat.num_div_den a, ← Rat.num_div_den b]
  have ha : ((a.den : ℚ)) ≠ 0 := by exact_mod_cast a.den_nz
  have hb : ((b.den : ℚ)) ≠ 0 := by exact_mod_cast b.den_nz
  field_simp
  try push_cast
  try ring

theorem qSub_eq (a b : ℚ) : qSub a b = a - b := by
  unfold qSub
  rw [Rat.mkRat_eq_divInt, Rat.divInt_eq_div]
  conv_rhs => rw [← Rat.num_div_den a, ← Rat.num_div_den b]
  have ha : ((a.den : ℚ)) ≠ 0 := by exact_mod_cast a.den_nz
  have hb : ((b.den : ℚ)) ≠ 0 := by exact_mod_cast b.den_nz
  field_simp
  try push_cast
  try ring

theorem qMul_eq (a b : ℚ) : qMul a b = a * b := by
  unfold qMul
  rw [Rat.mkRat_eq_divInt, Rat.divInt_eq_div]
  conv_rhs => rw [← Rat.num_div_den a, ← Rat.num_div_den b]
  have ha : ((a.den : ℚ)) ≠ 0 := by exact_mod_cast a.den_nz
  have hb : ((b.den : ℚ)) ≠ 0 := by exact_mod_cast b.den_nz
  field_simp
  try push_cast
  try ring

theorem qOfInt_eq (z : ℤ) : qOfInt z = (z : ℚ) := by
  unfold qOfInt
  rw [Rat.mkRat_eq_divInt, Rat.divInt_eq_div]
  norm_num

theorem qOfNat_eq (n : ℕ) : qOfNat n = (n : ℚ) := by
  unfold qOfNat
  rw [Rat.mkRat_eq_divInt, Rat.divInt_eq_div]
  norm_num

theorem qPow10_eq (k : ℕ) : qPow10 k = (10 : ℚ) ^ k := by
  unfold qPow10
  rw [Rat.mkRat_eq_divInt, Rat.divInt_eq_div]
  push_cast
  norm_num

theorem qDivN_eq (a : ℚ) (n : ℕ) : qDivN a n = a / (n : ℚ) := by
  unfold qDivN
  rcases Nat.eq_zero_or_pos n with h | h
  · subst h
    simp [Rat.mkRat_eq_divInt, Rat.divInt_eq_div]
  · rw [Rat.mkRat_eq_divInt, Rat.divInt_eq_div]
    have ha : ((a.den : ℚ)) ≠ 0 := by exact_mod_cast a.den_nz
    have hn : ((n : ℚ)) ≠ 0 := by exact_mod_cast Nat.pos_iff_ne_zero.mp h
    conv_rhs => rw [← Rat.num_div_den a]
    field_simp
    try push_cast
    try ring

theorem qMulN_eq (a : ℚ) (n : ℕ) : qMulN a n = a * (n : ℚ) := by
  unfold qMulN
  rw [Rat.mkRat_eq_divInt, Rat.divInt_eq_div]
  conv_rhs => rw [← Rat.num_div_den a]
  have ha : ((a.den : ℚ)) ≠ 0 := by exact_mod_cast a.den_nz
  field_simp
  try push_cast
  try ring

theorem qMulZ_eq (a : ℚ) (z : ℤ) : qMulZ a z = a * (z : ℚ) := by
  unfold qMulZ
  rw [Rat.mkRat_eq_divInt, Rat.divInt_eq_div]
  conv_rhs => rw [← Rat.num_div_den a]
  have ha : ((a.den : ℚ)) ≠ 0 := by exact_mod_cast a.den_nz
  field_simp
  try push_cast
  try ring

/-- The apostrophe character, built from its code point so that it can be
used in string-building code. -/
def squote : Char := Char.ofNat 39

/-- The en-dash character U+2013, the second alternative of the `[-–]`
class in the range regex of `parse_number`. -/
def enDash : Char := Char.ofNat 0x2013

/-- Membership in Python's `\s` class (ASCII part), also the set used by
`str.strip()`. -/
def isPySpace (c : Char) : Bool :=
  c == ' ' || c == '\t' || c == '\n' || c == '\r' || c == '\x0b' || c == '\x0c'

/-- The `[-–]` character class of the range regex in `parse_number`. -/
def isDash (c : Char) : Bool := c == '-' || c == enDash

/-- The `[\d,\.]` character class of the range regex in `parse_number`. -/
def isRangeClass (c : Char) : Bool := c.isDigit || c == ',' || c == '.'

/-- Python `str.strip()`: drop leading and trailing whitespace. -/
def pyStrip (l : List Char) : List Char :=
  ((l.dropWhile isPySpace).reverse.dropWhile isPySpace).reverse

/-- Value of a decimal digit character. -/
def digitVal (c : Char) : ℕ := c.toNat - 48

/-- Decimal digit character for a value below 10. -/
def digitChar (n : ℕ) : Char := Char.ofNat (48 + n)

/-- Value of a list of decimal digit characters read left to right. -/
def parseNatDigits (l : List Char) : ℕ :=
  l.foldl (fun a c => 10 * a + digitVal c) 0

/-- Fuelled decimal rendering of a natural number, most significant digit
first. -/
def renderNatAux : ℕ → ℕ → List Char
  | 0, _ => []
  | f + 1, n =>
    if n < 10 then [digitChar n]
    else renderNatAux f (n / 10) ++ [digitChar (n % 10)]

/-- Decimal rendering of a natural number. -/
def renderNat (n : ℕ) : List Char := renderNatAux (n + 1) n

/-- Round a rational to the nearest integer, ties to even: the rounding
mode of Python's `round`. -/
def roundHalfEven (x : ℚ) : ℤ :=
  let f := ⌊x⌋
  let r := qSub x (qOfInt f)
  if r < mkRat 1 2 then f
  else if mkRat 1 2 < r then f + 1
  else if f % 2 = 0 then f else f + 1

/-- Python `round(x, 2)` with exact decimal semantics. -/
def round2 (x : ℚ) : ℚ := qDivN (qOfInt (roundHalfEven (qMulN x 100))) 100

theorem round2_eq (x : ℚ) :
    round2 x = ((roundHalfEven (x * 100) : ℚ)) / 100 := by
  unfold round2
  rw [qDivN_eq, qOfInt_eq, qMulN_eq]
  norm_num

/-- Python `float()` applied to a string of decimal digits and dots (the
only shape `parse_number` ever feeds it: its inputs are filtered to
`[\d\.,]` and then stripped of commas).  Fails (`none`) unless at least
one digit is present and at most one dot. -/
def floatDD (l : List Char) : Option ℚ :=
  if l.all (fun c => c.isDigit || c == '.') ∧ l.any Char.isDigit ∧ l.count '.' ≤ 1 then
    let ip := l.takeWhile (fun c => !(c == '.'))
    let fr := (l.dropWhile (fun c => !(c == '.'))).tail
    some (qAdd (qOfNat (parseNatDigits ip)) (qDivN (qOfNat (parseNatDigits fr)) (10 ^ fr.length)))
  else none

/-- One attempt of the range regex `.*?(\d[\d,\.]*)\s*[-–]\s*(\d[\d,\.]*).*`
of `parse_number` at the current position: a digit starts a maximal
`[\d,\.]` run (the greedy group cannot profitably backtrack because the
run is followed by a character outside the class, which can match neither
`\s*` nor `[-–]`), then optional whitespace, a dash or en-dash, optional
whitespace, and a second digit-led run. -/
def tryRangeAt : List Char → Option (List Char × List Char)
  | [] => none
  | c :: cs =>
    if c.isDigit then
      let run1 := c :: cs.takeWhile isRangeClass
      let rest1 := (cs.dropWhile isRangeClass).dropWhile isPySpace
      match rest1 with
      | d :: cs2 =>
        if isDash d then
          match cs2.dropWhile isPySpace with
          | e :: cs3 =>
            if e.isDigit then some (run1, e :: cs3.takeWhile isRangeClass) else none
          | [] => none
        else none
      | [] => none
    else none

/-- The leftmost match of the range regex of `parse_number`.  The lazy
prefix `.*?` scans forward but `.` does not match a newline, so the scan
stops at the first `'\n'`: a range that starts after a newline is not
found by `re.match`. -/
def rangeFind : List Char → Option (List Char × List Char)
  | [] => none
  | c :: cs =>
    match tryRangeAt (c :: cs) with
    | some r => some r
    | none => if c == '\n' then none else rangeFind cs

/-- JSON values, doubling as the embedded universe of Python values the
program manipulates (`null` for `None`).  Integers and floats are kept
distinct, as Python does. -/
inductive Json where
  | null : Json
  | bool : Bool → Json
  | int : ℤ → Json
  | float : ℚ → Json
  | str : String → Json
  | arr : List Json → Json
  | obj : List (String × Json) → Json

/-- Python `str()` of an integer. -/
def intRepr (n : ℤ) : String :=
  if n < 0 then "-" ++ String.mk (renderNat (-n).toNat)
  else String.mk (renderNat n.toNat)

/-- Decimal part rendering of Python float `str()`, for a fractional
numerator below 100: trailing zero stripped, at least one digit kept. -/
def fracChars (f : ℕ) : List Char :=
  if f = 0 then ['0']
  else if f % 10 = 0 then [digitChar (f / 10)]
  else [digitChar (f / 10), digitChar (f % 10)]

/-- Python `str()` of a non-negative float whose value is a multiple of
1/100 (the shape of every value `parse_number` returns): positional
decimal notation below 1e16, scientific notation from 1e16 on, mirroring
CPython's switch point. -/
def strFloatNN (q : ℚ) : String :=
  if q < qPow10 16 then
    let n := (⌊qMulN q 100⌋).toNat
    String.mk (renderNat (n / 100) ++ '.' :: fracChars (n % 100))
  else
    let ds := renderNat (⌊q⌋).toNat
    let mant :=
      match ds with
      | [] => ['0']
      | d :: rest =>
        let rest2 := (rest.reverse.dropWhile (fun c => c == '0')).reverse
        if rest2.isEmpty then [d] else d :: '.' :: rest2
    String.mk (mant ++ 'e' :: '+' :: renderNat (ds.length - 1))

/-- Python `str()` of a float, via `strFloatNN` on the absolute value. -/
def strFloat (q : ℚ) : String :=
  if q < 0 then "-" ++ strFloatNN (-q) else strFloatNN q

/-- Python `repr()` of a string: wrapped in single quotes unless the
string contains a single quote and no double quote, escaping the
backslash and the chosen quote (control-character escaping is not
modelled). -/
def pyStrRepr (s : String) : String :=
  let qc := if s.data.contains squote && !(s.data.contains '"') then '"' else squote
  String.mk (qc :: s.data.foldr
    (fun c acc => if c == '\\' || c == qc then '\\' :: c :: acc else c :: acc) [qc])

mutual

/-- Python `repr()` of an embedded value. -/
def pyRepr : Json → String
  | .null => "None"
  | .bool b => if b then "True" else "False"
  | .int n => intRepr n
  | .float q => strFloat q
  | .str s => pyStrRepr s
  | .arr l => "[" ++ String.intercalate ", " (pyReprList l) ++ "]"
  | .obj l => "\x7b" ++ String.intercalate ", " (pyReprObjList l) ++ "\x7d"

/-- Python `repr()` of the elements of a list. -/
def pyReprList : List Json → List String
  | [] => []
  | x :: xs => pyRepr x :: pyReprList xs

/-- Python `repr()` of the `key: value` entries of a dict. -/
def pyReprObjList : List (String × Json) → List String
  | [] => []
  | (k, v) :: xs => (pyStrRepr k ++ ": " ++ pyRepr v) :: pyReprObjList xs

end

/-- Python `str()` of an embedded value: the string itself for strings,
`repr` otherwise. -/
def pyStr (j : Json) : String :=
  match j with
  | .str s => s
  | v => pyRepr v

/-- The string branch of `parse_number` (`app.py` lines 76-94): strip,
empty check, the range-regex branch (whose two `float` calls sit outside
any `try` and can raise, modelled by `none`), else keep only `[\d\.,]`,
collapse commas, and `float` inside a `try` that turns failure into 0. -/
def parseNumStr (l : List Char) : Option ℚ :=
  let s := pyStrip l
  if s.isEmpty then some 0
  else
    match rangeFind s with
    | some (g1, g2) =>
      match floatDD (g1.filter (fun c => !(c == ','))),
            floatDD (g2.filter (fun c => !(c == ','))) with
      | some a, some b => some (round2 (qDivN (qAdd a b) 2))
      | _, _ => none
    | none =>
      let cleaned := s.filter (fun c => c.isDigit || c == '.' || c == ',')
      if cleaned.isEmpty then some 0
      else
        let cleaned2 :=
          if 1 < cleaned.count '.' then cleaned.filter (fun c => !(c == ',')) else cleaned
        match floatDD (cleaned2.filter (fun c => !(c == ','))) with
        | some v => some (round2 v)
        | none => some 0

/-- `parse_number` of `app.py` (lines 72-94).  `None` gives 0.0; `bool`
satisfies `isinstance(value, (int, float))` and passes through `float()`
unrounded, as do `int` and `float`; every other value is sent through
`str()` and the string pipeline.  `none` marks a raised exception. -/
def parse_number : Json → Option ℚ
  | .null => some 0
  | .bool b => some (if b then qOfNat 1 else qOfNat 0)
  | .int n => some (qOfInt n)
  | .float q => some q
  | .str s => parseNumStr s.data
  | .arr l => parseNumStr (pyStr (.arr l)).data
  | .obj l => parseNumStr (pyStr (.obj l)).data

example : parse_number (.str "15,000 - 18,000") = some 16500 := by decide
example : parse_number (.str "$1,200.50") = some (mkRat 2401 2) := by decide
example : parse_number (.str "3.5.2") = some 0 := by decide
example : parse_number (.str "1.2.3-4") = none := by decide
example : parse_number (.str "around 1000-2000 total") = some 1500 := by decide
example : parse_number (.int 1200) = some 1200 := by decide

/-- Negation of a rational in `mkRat` form. -/
def qNeg (a : ℚ) : ℚ := mkRat (-a.num) a.den

theorem qNeg_eq (a : ℚ) : qNeg a = -a := by
  unfold qNeg
  rw [Rat.mkRat_eq_divInt, Rat.divInt_eq_div]
  conv_rhs => rw [← Rat.num_div_den a]
  have ha : ((a.den : ℚ)) ≠ 0 := by exact_mod_cast a.den_nz
  field_simp

/-- Python truthiness of an embedded value (`bool(x)`), as used by the
source's `if not data:` and `x or y` expressions. -/
def pyTruthy : Json → Bool
  | .null => false
  | .bool b => b
  | .int n => !(n == 0)
  | .float q => !(q == 0)
  | .str s => !(s == "")
  | .arr l => !l.isEmpty
  | .obj l => !l.isEmpty

/-- Python iteration `for it in x`: lists yield elements, strings yield
one-character strings, dicts yield their keys; numbers, booleans and
`None` raise `TypeError` (`none`). -/
def pyIter : Json → Option (List Json)
  | .arr l => some l
  | .str s => some (s.data.map (fun c => .str (String.mk [c])))
  | .obj l => some (l.map (fun kv => Json.str kv.1))
  | _ => none

/-- Python `int()` on a string: strip, optional sign, one or more ASCII
digits, nothing else (underscore separators not modelled). -/
def pyIntStr (l : List Char) : Option ℤ :=
  let s := pyStrip l
  match s with
  | '+' :: r => if !r.isEmpty && r.all Char.isDigit then some (parseNatDigits r : ℤ) else none
  | '-' :: r => if !r.isEmpty && r.all Char.isDigit then some (-(parseNatDigits r : ℤ)) else none
  | r => if !r.isEmpty && r.all Char.isDigit then some (parseNatDigits r : ℤ) else none

/-- Truncation of a rational toward zero: Python `int()` on a float. -/
def ratTrunc (q : ℚ) : ℤ := if 0 ≤ q then ⌊q⌋ else -⌊-q⌋

/-- Python `int()` on an embedded value; `none` marks a raised
`TypeError`/`ValueError`. -/
def pyInt : Json → Option ℤ
  | .bool b => some (if b then 1 else 0)
  | .int n => some n
  | .float q => some (ratTrunc q)
  | .str s => pyIntStr s.data
  | _ => none

/-- Exponent part of a float literal after the `e`/`E`: optional sign and
one or more digits. -/
def floatExpAux : List Char → Option (ℤ × List Char)
  | '+' :: r =>
    let d := r.takeWhile Char.isDigit
    if d.isEmpty then none else some ((parseNatDigits d : ℤ), r.dropWhile Char.isDigit)
  | '-' :: r =>
    let d := r.takeWhile Char.isDigit
    if d.isEmpty then none else some (-(parseNatDigits d : ℤ), r.dropWhile Char.isDigit)
  | r =>
    let d := r.takeWhile Char.isDigit
    if d.isEmpty then none else some ((parseNatDigits d : ℤ), r.dropWhile Char.isDigit)

/-- Python `float()` on a string: strip, optional sign, decimal mantissa
with optional fraction, optional exponent; the whole string must be
consumed.  `inf`, `nan` and underscore separators are not modelled. -/
def pyFloatStr (l : List Char) : Option ℚ :=
  let s := pyStrip l
  let (neg, r1) :=
    match s with
    | '+' :: r => (false, r)
    | '-' :: r => (true, r)
    | r => (false, r)
  let ip := r1.takeWhile Char.isDigit
  let r2 := r1.dropWhile Char.isDigit
  let (fr, r3) :=
    match r2 with
    | '.' :: r => (r.takeWhile Char.isDigit, r.dropWhile Char.isDigit)
    | r => ([], r)
  if ip.isEmpty && fr.isEmpty then none
  else
    let expPart : Option (ℤ × List Char) :=
      match r3 with
      | 'e' :: r => floatExpAux r
      | 'E' :: r => floatExpAux r
      | r => some (0, r)
    match expPart with
    | none => none
    | some (ex, r4) =>
      if !r4.isEmpty then none
      else
        let mant := qAdd (qOfNat (parseNatDigits ip)) (qDivN (qOfNat (parseNatDigits fr)) (10 ^ fr.length))
        let scaled := if 0 ≤ ex then qMulN mant (10 ^ ex.toNat) else qDivN mant (10 ^ (-ex).toNat)
        some (if neg then qNeg scaled else scaled)

/-- Python `float()` on an embedded value (`bool` is an `int` subtype);
`none` marks a raised `TypeError`/`ValueError`. -/
def pyFloat : Json → Option ℚ
  | .null => none
  | .bool b => some (if b then qOfNat 1 else qOfNat 0)
  | .int n => some (qOfInt n)
  | .float q => some q
  | .str s => pyFloatStr s.data
  | .arr _ => none
  | .obj _ => none

/-- JSON whitespace, the only characters `json.loads` skips between
tokens. -/
def jsonWs (c : Char) : Bool := c == ' ' || c == '\t' || c == '\n' || c == '\r'

/-- Skip JSON whitespace. -/
def skipWs (l : List Char) : List Char := l.dropWhile jsonWs

/-- Value of a hexadecimal digit. -/
def hexVal (c : Char) : Option ℕ :=
  if c.isDigit then some (digitVal c)
  else if 'a' ≤ c && c ≤ 'f' then some (c.toNat - 87)
  else if 'A' ≤ c && c ≤ 'F' then some (c.toNat - 55)
  else none

/-- The single-character JSON string escapes.  A single quote is not a
valid JSON escape, so `escChar` fails on it: this is what makes
`json.loads` reject `\'` (strict mode). -/
def escChar (c : Char) : Option Char :=
  match c with
  | '"' => some '"'
  | '\\' => some '\\'
  | '/' => some '/'
  | 'b' => some (Char.ofNat 8)
  | 'f' => some (Char.ofNat 12)
  | 'n' => some '\n'
  | 'r' => some '\r'
  | 't' => some '\t'
  | _ => none

/-- Body of a JSON string after the opening quote: ends at an unescaped
`"`; `\uXXXX` escapes become the code point (surrogate pairing is not
modelled); invalid escapes and raw control characters fail, as in
Python's strict `json.loads`. -/
def parseStringBody : List Char → Option (List Char × List Char)
  | [] => none
  | '"' :: rest => some ([], rest)
  | '\\' :: 'u' :: h1 :: h2 :: h3 :: h4 :: rest =>
    match hexVal h1, hexVal h2, hexVal h3, hexVal h4 with
    | some a, some b, some c, some d =>
      match parseStringBody rest with
      | some (s, r) => some (Char.ofNat (4096 * a + 256 * b + 16 * c + d) :: s, r)
      | none => none
    | _, _, _, _ => none
  | '\\' :: e :: rest =>
    match escChar e with
    | some c =>
      match parseStringBody rest with
      | some (s, r) => some (c :: s, r)
      | none => none
    | none => none
  | c :: rest =>
    if c.toNat < 32 then none
    else
      match parseStringBody rest with
      | some (s, r) => some (c :: s, r)
      | none => none

/-- The integer-digits part of a JSON number: `0` or a nonzero digit
followed by digits (leading zeros are not a longer token). -/
def parseJsonInt : List Char → Option (List Char × List Char)
  | [] => none
  | '0' :: rest => some (['0'], rest)
  | c :: rest =>
    if c.isDigit then some (c :: rest.takeWhile Char.isDigit, rest.dropWhile Char.isDigit)
    else none

/-- A JSON number token `-?(0|[1-9]\d*)(\.\d+)?([eE][+-]?\d+)?`: an `int`
when neither fraction nor exponent is present, a `float` otherwise.  A
dot or `e` not followed by the required digits is left unconsumed, as the
tokenizer regex does. -/
def parseNumberTok (l : List Char) : Option (Json × List Char) :=
  let (neg, r1) :=
    match l with
    | '-' :: r => (true, r)
    | r => (false, r)
  match parseJsonInt r1 with
  | none => none
  | some (ds, r2) =>
    let fracPart : Option (List Char × List Char) :=
      match r2 with
      | '.' :: r =>
        let d := r.takeWhile Char.isDigit
        if d.isEmpty then none else some (d, r.dropWhile Char.isDigit)
      | _ => none
    let (fr, r3) := match fracPart with
      | some (d, r) => (d, r)
      | none => (([] : List Char), r2)
    let expPart : Option (ℤ × List Char) :=
      match r3 with
      | 'e' :: r => floatExpAux r
      | 'E' :: r => floatExpAux r
      | _ => none
    match fracPart, expPart with
    | none, none =>
      some (.int (if neg then -(parseNatDigits ds : ℤ) else (parseNatDigits ds : ℤ)), r2)
    | _, _ =>
      let (ex, r4) := match expPart with
        | some (e, r) => (e, r)
        | none => ((0 : ℤ), r3)
      let mant := qAdd (qOfNat (parseNatDigits ds)) (qDivN (qOfNat (parseNatDigits fr)) (10 ^ fr.length))
      let scaled := if 0 ≤ ex then qMulN mant (10 ^ ex.toNat) else qDivN mant (10 ^ (-ex).toNat)
      some (.float (if neg then qNeg scaled else scaled), r4)

/-- Insert a key into an object under construction with Python dict
semantics: a duplicate key keeps its first position and takes the last
value. -/
def insertKV (acc : List (String × Json)) (k : String) (v : Json) : List (String × Json) :=
  if acc.any (fun kv => kv.1 == k) then acc.map (fun kv => if kv.1 == k then (k, v) else kv)
  else acc ++ [(k, v)]

mutual

/-- One JSON value, fuelled: objects, arrays, strings, `true`/`false`/
`null`, numbers.  Returns the value and the unconsumed rest. -/
def parseValue : ℕ → List Char → Option (Json × List Char)
  | 0, _ => none
  | f + 1, l =>
    match l with
    | '{' :: r =>
      match skipWs r with
      | '}' :: r2 => some (.obj [], r2)
      | r2 =>
        match parseMembers f [] r2 with
        | some (kvs, r3) => some (.obj kvs, r3)
        | none => none
    | '[' :: r =>
      match skipWs r with
      | ']' :: r2 => some (.arr [], r2)
      | r2 =>
        match parseElems f [] r2 with
        | some (vs, r3) => some (.arr vs, r3)
        | none => none
    | '"' :: r =>
      match parseStringBody r with
      | some (s, r2) => some (.str (String.mk s), r2)
      | none => none
    | 't' :: 'r' :: 'u' :: 'e' :: r => some (.bool true, r)
    | 'f' :: 'a' :: 'l' :: 's' :: 'e' :: r => some (.bool false, r)
    | 'n' :: 'u' :: 'l' :: 'l' :: r => some (.null, r)
    | l2 => parseNumberTok l2

/-- The members of a JSON object, positioned at the start of a member:
`"key" : value` then `,` and more members or the closing `}`.  A comma
must be followed by another member: a trailing comma fails, which is the
malformation the source's repair pass removes. -/
def parseMembers : ℕ → List (String × Json) → List Char → Option (List (String × Json) × List Char)
  | 0, _, _ => none
  | f + 1, acc, l =>
    match l with
    | '"' :: r =>
      match parseStringBody r with
      | some (k, r2) =>
        match skipWs r2 with
        | ':' :: r3 =>
          match parseValue f (skipWs r3) with
          | some (v, r4) =>
            match skipWs r4 with
            | ',' :: r5 => parseMembers f (insertKV acc (String.mk k) v) (skipWs r5)
            | '}' :: r5 => some (insertKV acc (String.mk k) v, r5)
            | _ => none
          | none => none
        | _ => none
      | none => none
    | _ => none

/-- The elements of a JSON array, positioned at the start of an element.
A trailing comma fails here too. -/
def parseElems : ℕ → List Json → List Char → Option (List Json × List Char)
  | 0, _, _ => none
  | f + 1, acc, l =>
    match parseValue f l with
    | some (v, r) =>
      match skipWs r with
      | ',' :: r2 => parseElems f (acc ++ [v]) (skipWs r2)
      | ']' :: r2 => some (acc ++ [v], r2)
      | _ => none
    | none => none

end

/-- Python `json.loads`: parse one value and require only whitespace
after it. -/
def jsonLoads (l : List Char) : Option Json :=
  match parseValue (l.length + 1) (skipWs l) with
  | some (v, rest) => if (skipWs rest).isEmpty then some v else none
  | none => none

/-- The match of `re.search(r'\{[\s\S]*\}', text)`: from the first `{` to
the last `}` after it; `none` when no such region exists. -/
def regionFind (l : List Char) : Option (List Char) :=
  let l1 := l.dropWhile (fun c => !(c == '{'))
  match l1 with
  | [] => none
  | _ =>
    let r2 := l1.reverse.dropWhile (fun c => !(c == '}'))
    if r2.isEmpty then none else some r2.reverse

/-- The first repair of `extract_json_from_text`: replace every single
quote by a double quote. -/
def replaceSquote (l : List Char) : List Char :=
  l.map (fun c => if c == squote then '"' else c)

/-- Fuelled body of `re.sub(r',\s*X', 'X', s)` for a closing character
`X`: scanning left to right, a comma followed by optional whitespace and
`X` is replaced by `X` and scanning resumes after the match. -/
def subTrailingAux (close : Char) : ℕ → List Char → List Char
  | 0, l => l
  | _, [] => []
  | f + 1, c :: cs =>
    if c == ',' then
      match cs.dropWhile isPySpace with
      | d :: rest =>
        if d == close then close :: subTrailingAux close f rest
        else c :: subTrailingAux close f cs
      | [] => c :: subTrailingAux close f cs
    else c :: subTrailingAux close f cs

/-- `re.sub(r',\s*X', 'X', s)` for a closing character `X`. -/
def subTrailing (close : Char) (l : List Char) : List Char :=
  subTrailingAux close (l.length + 1) l

/-- `extract_json_from_text` of `app.py` (lines 54-70): empty text gives
`None`; otherwise search for the greedy `{...}` region, try a strict
parse, and on failure retry once after replacing single quotes and
stripping trailing commas before `}` and `]`. -/
def extract_json_from_text (text : String) : Option Json :=
  if text == "" then none
  else
    match regionFind text.data with
    | none => none
    | some s =>
      match jsonLoads s with
      | some v => some v
      | none =>
        let s2 := subTrailing ']' (subTrailing '}' (replaceSquote s))
        jsonLoads s2

/-- `CURRENCY_MAP` of `app.py` (lines 20-27), in insertion order. -/
def CURRENCY_MAP : List (String × String) :=
  [("india", "INR"), ("ind", "INR"), ("saudi", "SAR"), ("saudi arabia", "SAR"),
   ("kingdom", "SAR"), ("uae", "AED"), ("united arab emirates", "AED"),
   ("united states", "USD"), ("usa", "USD"), ("us", "USD"), ("america", "USD"),
   ("canada", "CAD"), ("australia", "AUD"), ("uk", "GBP"),
   ("united kingdom", "GBP"), ("germany", "EUR"), ("france", "EUR"),
   ("europe", "EUR"), ("japan", "JPY"), ("china", "CNY"), ("pakistan", "PKR"),
   ("bahrain", "BHD"), ("qatar", "QAR"), ("oman", "OMR")]

/-- ASCII lower-casing of a character list, modelling `str.lower()`. -/
def toLowerStr (l : List Char) : List Char := l.map Char.toLower

/-- Whether `p` is an initial segment of `l`. -/
def listStartsWith : List Char → List Char → Bool
  | [], _ => true
  | _ :: _, [] => false
  | p :: ps, x :: xs => p == x && listStartsWith ps xs

/-- Whether `pat` occurs contiguously inside `l`: Python's `pat in l` on
strings. -/
def containsSub (pat : List Char) : List Char → Bool
  | [] => listStartsWith pat []
  | x :: xs => listStartsWith pat (x :: xs) || containsSub pat xs

/-- `detect_currency_code` of `app.py` (lines 29-36): falsy (empty) input
gives `"USD"`; otherwise strip, lower-case, and return the code of the
first table key contained in the text, `"USD"` when none is. -/
def detect_currency_code (place : String) : String :=
  if place == "" then "USD"
  else
    let p := toLowerStr (pyStrip place.data)
    match CURRENCY_MAP.find? (fun kv => containsSub kv.1.data p) with
    | some kv => kv.2
    | none => "USD"

example : detect_currency_code "Mumbai, India" = "INR" := by decide
example : detect_currency_code "" = "USD" := by decide
example : detect_currency_code "Random Town" = "USD" := by decide
example : extract_json_from_text "no braces here" = none := rfl
example :
    extract_json_from_text "noise \x7b\"a\":1,\x7d more noise" =
      some (.obj [("a", .int 1)]) := rfl

/-- The test text of the single-quote edge case: the thirteen characters
of the Python literal `'{"a": "b\\'s"}'`. -/
def quoteEdgeText : String :=
  String.mk ['\x7b', '"', 'a', '"', ':', ' ', '"', 'b', '\\', squote, 's', '"', '\x7d']

example :
    extract_json_from_text quoteEdgeText = some (.obj [("a", .str "b\"s")]) := rfl

/-- Python `dict.get(k)` with no default: the value at the first
occurrence of the key, if present. -/
def pyGetOpt (d : List (String × Json)) (k : String) : Option Json :=
  (d.find? (fun kv => kv.1 == k)).map (fun kv => kv.2)

/-- Python `dict.get(k, dflt)`. -/
def pyGet (d : List (String × Json)) (k : String) (dflt : Json) : Json :=
  (pyGetOpt d k).getD dflt

/-- `CATEGORY_KEYS` of `app.py` (lines 97-103): the five fixed category
keys and display titles, in order. -/
def CATEGORY_KEYS : List (String × String) :=
  [("vision_2030", "Vision 2030 & Global Event Diplomacy"),
   ("financial_modeling", "Financial Modeling"),
   ("government_relations", "Government Relations"),
   ("global_case_stories", "Global Case Stories"),
   ("hybrid_learning", "Hybrid Learning")]

/-- One normalized category as passed to the template: the raw items are
dicts (`Json.obj`), the subtotal a number (`Json.float` on the success
path, the raw `Json.int 0` on the error path). -/
structure Category where
  key : String
  title : String
  items : List Json
  subtotal : Json

/-- The quantity coercion of the item loop (`app.py` lines 280-286):
`int(qty_raw)` with any exception or non-positive result replaced by 1. -/
def qtyOf (kvs : List (String × Json)) : ℤ :=
  match pyInt (pyGet kvs "quantity" (.int 1)) with
  | some n => if n ≤ 0 then 1 else n
  | none => 1

/-- The `for it in items` loop of the normalizer (`app.py` lines
276-296): non-dict entries are skipped; a dict entry contributes a
normalized item dict and `price * qty` to the computed subtotal; a
raising `parse_number` aborts the loop (`none`). -/
def normItemsLoop : List Json → List Json → ℚ → Option (List Json × ℚ)
  | [], acc, s => some (acc, s)
  | it :: rest, acc, s =>
    match it with
    | .obj kvs =>
      let nameRaw := pyGet kvs "name" (.str "")
      let name := if pyTruthy nameRaw then nameRaw else Json.str (pyStr nameRaw)
      let specsRaw := pyGet kvs "specs" (.str "")
      let specs := if pyTruthy specsRaw then specsRaw else Json.str ""
      let qty := qtyOf kvs
      match parse_number (pyGet kvs "price" (.int 0)) with
      | some price =>
        normItemsLoop rest
          (acc ++ [Json.obj [("name", name), ("specs", specs),
                             ("quantity", .int qty), ("price", .float (round2 price))]])
          (qAdd s (qMulZ price qty))
      | none => none
    | _ => normItemsLoop rest acc s

/-- The raw items value of a category block (`app.py` lines 268-270):
`cat_block.get("items", [])` when the block is a dict, `[]` otherwise
(and `{}` when the key is absent, which yields the same defaults). -/
def catItemsJ (data : List (String × Json)) (key : String) : Json :=
  match pyGet data key (.obj []) with
  | .obj l => pyGet l "items" (.arr [])
  | _ => .arr []

/-- The raw subtotal value of a category block: `cat_block.get("subtotal", 0)`
when the block is a dict, `0` otherwise. -/
def catSubJ (data : List (String × Json)) (key : String) : Json :=
  match pyGet data key (.obj []) with
  | .obj l => pyGet l "subtotal" (.int 0)
  | _ => .int 0

/-- The subtotal resolution of the normalizer: `float(subtotal)` when it
succeeds and is positive, else the computed sum rounded to 2 decimals. -/
def resolveSub (subJ : Json) (computed : ℚ) : ℚ :=
  match pyFloat subJ with
  | some x => if x ≤ 0 then round2 computed else x
  | none => round2 computed

/-- One category of the normalizer (`app.py` lines 268-305): read the
block, normalize the items, then resolve the subtotal.  Returns the
rendered category (stored subtotal rounded) and the unrounded resolved
value that the grand total accumulates. -/
def normCat (data : List (String × Json)) (key title : String) : Option (Category × ℚ) :=
  match pyIter (catItemsJ data key) with
  | none => none
  | some items =>
    match normItemsLoop items [] 0 with
    | none => none
    | some (nItems, computed) =>
      let resolved := resolveSub (catSubJ data key) computed
      some ({ key := key, title := title, items := nItems,
              subtotal := .float (round2 resolved) }, resolved)

/-- The category loop over `CATEGORY_KEYS`, collecting each category and
its unrounded resolved subtotal; any raising category aborts. -/
def normCats (data : List (String × Json)) : List (String × String) → Option (List (Category × ℚ))
  | [] => some []
  | (k, t) :: rest =>
    match normCat data k t with
    | none => none
    | some p =>
      match normCats data rest with
      | none => none
      | some ps => some (p :: ps)

/-- `isinstance(g, (int, float)) and g > 0` (`app.py` line 310): note
`bool` is an `int` subtype in Python. -/
def numPos : Json → Bool
  | .int n => decide (0 < n)
  | .float q => decide (0 < q)
  | .bool b => b
  | _ => false

/-- The report normalizer (`app.py` lines 266-313): the five categories
in order, the grand total as the rounded sum of the unrounded resolved
subtotals, overridden by `round(parse_number(g), 2)` when the upstream
mapping carries a positive numeric `grand_total` `g`. -/
def normalizeReport (data : List (String × Json)) : Option (List Category × ℚ) :=
  match normCats data CATEGORY_KEYS with
  | none => none
  | some rs =>
    let cats := rs.map (fun p => p.1)
    let computedGrand := round2 (rs.foldl (fun a p => qAdd a p.2) 0)
    let g := pyGet data "grand_total" .null
    if numPos g then
      match parse_number g with
      | some mt => some (cats, round2 mt)
      | none => none
    else
      some (cats, computedGrand)

/-- The final fallback mapping of the route (`app.py` lines 218-229),
used when neither extraction yields data. -/
def fallbackData (product currency : String) : List (String × Json) :=
  [("product", .str product), ("currency", .str currency),
   ("vision_2030", .obj [("items", .arr []), ("subtotal", .int 0)]),
   ("financial_modeling", .obj [("items", .arr []), ("subtotal", .int 0)]),
   ("government_relations", .obj [("items", .arr []), ("subtotal", .int 0)]),
   ("global_case_stories", .obj [("items", .arr []), ("subtotal", .int 0)]),
   ("hybrid_learning", .obj [("items", .arr []), ("subtotal", .int 0)]),
   ("grand_total", .int 0)]

/-- Python `if not data:` on an extraction result: `None` and the empty
dict are falsy. -/
def pyFalsyOpt : Option Json → Bool
  | none => true
  | some v => !(pyTruthy v)

/-- View a value known to be a dict as its entry list.
`extract_json_from_text` only ever returns objects (see
`extract_isObj`), so the `[]` default is unreachable on route inputs. -/
def asObj : Json → List (String × Json)
  | .obj l => l
  | _ => []

/-- The success path of the `/results` route after the two model calls
(`app.py` lines 195-266), as a function of the two response texts: first
extraction, corrective second extraction when falsy, fallback skeleton
when both are falsy, then normalization.  `none` marks an exception
reaching the route's `except` handler. -/
def resultsCore (product place t1 t2 : String) : Option (List Category × ℚ) :=
  let currency := detect_currency_code place
  let d1 := extract_json_from_text t1
  let d2 := if pyFalsyOpt d1 then extract_json_from_text t2 else d1
  let data := if pyFalsyOpt d2 then Json.obj (fallbackData product currency) else d2.getD (.obj [])
  normalizeReport (asObj data)

/-- The synthetic error item of the route's `except` branch. -/
def errItem (msg : String) : Json :=
  .obj [("name", .str "Error"), ("specs", .str msg), ("quantity", .int 1), ("price", .int 0)]

/-- The fallback mapping of the `except` branch (`app.py` lines 316-326). -/
def errorFallback (product currency msg : String) : List (String × Json) :=
  [("product", .str (if product == "" then "Unknown" else product)),
   ("currency", .str currency),
   ("vision_2030", .obj [("items", .arr [errItem msg]), ("subtotal", .int 0)]),
   ("financial_modeling", .obj [("items", .arr []), ("subtotal", .int 0)]),
   ("government_relations", .obj [("items", .arr []), ("subtotal", .int 0)]),
   ("global_case_stories", .obj [("items", .arr []), ("subtotal", .int 0)]),
   ("hybrid_learning", .obj [("items", .arr []), ("subtotal", .int 0)]),
   ("grand_total", .int 0)]

/-- View a value known to be a list as its elements. -/
def asArr : Json → List Json
  | .arr l => l
  | _ => []

/-- What the `except` branch renders: product, place, currency, the five
categories rebuilt from the fallback mapping, a zero grand total, and
the error text. -/
structure RenderOut where
  product : String
  place : String
  currency : String
  categories : List Category
  grand_total : ℚ
  error : Option String

/-- The `except` branch of the `/results` route (`app.py` lines 315-341):
build the fallback mapping, then the category list from it, and render
with `grand_total=0.0` and `error=str(e)`. -/
def errorRender (product place msg : String) : RenderOut :=
  let currency := detect_currency_code place
  let fallback := errorFallback product currency msg
  let cats := CATEGORY_KEYS.map (fun kt =>
    let block := pyGet fallback kt.1 (.obj [("items", .arr []), ("subtotal", .int 0)])
    { key := kt.1, title := kt.2,
      items := asArr (pyGet (asObj block) "items" (.arr [])),
      subtotal := pyGet (asObj block) "subtotal" (.int 0) })
  { product := product, place := place, currency := currency,
    categories := cats, grand_total := 0, error := some msg }

/-- The empty-but-valid report skeleton: five categories in order, no
items, all subtotals 0. -/
def skeletonCats : List Category :=
  CATEGORY_KEYS.map (fun kt =>
    { key := kt.1, title := kt.2, items := [], subtotal := .float 0 })

example : resultsCore "Kiosk" "Dubai" "no braces here" "" = some (skeletonCats, 0) := rfl
example :
    normalizeReport [("vision_2030", .obj [("items",
        .arr [.obj [("price", .str "100"), ("quantity", .int 2)]])])] =
      some ([⟨"vision_2030", "Vision 2030 & Global Event Diplomacy",
              [.obj [("name", .str ""), ("specs", .str ""), ("quantity", .int 2),
                     ("price", .float 100)]], .float 200⟩,
             ⟨"financial_modeling", "Financial Modeling", [], .float 0⟩,
             ⟨"government_relations", "Government Relations", [], .float 0⟩,
             ⟨"global_case_stories", "Global Case Stories", [], .float 0⟩,
             ⟨"hybrid_learning", "Hybrid Learning", [], .float 0⟩], 200) := rfl

theorem find?_append_first {α : Type} (p : α → Bool) (pre : List α) (kv : α) (post : List α)
    (hpre : ∀ x ∈ pre, p x = false) (hkv : p kv = true) :
    List.find? p (pre ++ kv :: post) = some kv := by
  induction pre with
  | nil => simp [List.find?, hkv]
  | cons x xs ih =>
    have hx : p x = false := hpre x (by simp)
    simp only [List.cons_append, List.find?, hx]
    exact ih (fun y hy => hpre y (by simp [hy]))

/-- Claim C7: `parse_number` satisfies each documented example: both
spellings of the range `15,000-18,000` give the mean `16500.0` with
thousands separators stripped, `$1,200.50` gives `1200.50`, `$2,500.75`
gives `2500.75`, and the empty string, `"abc"`, the ambiguous `"3.5.2"`,
`None` and the integer `1200` give `0.0`, `0.0`, `0.0`, `0.0` and
`1200.0` respectively (the two closing equations spell out the decimal
values of the `mkRat` literals). -/
theorem spec2_c7_parse_number_examples :
    parse_number (.str "15,000 - 18,000") = some 16500 ∧
    parse_number (.str "15,000-18,000") = some 16500 ∧
    parse_number (.str "$1,200.50") = some (mkRat 2401 2) ∧
    parse_number (.str "$2,500.75") = some (mkRat 10003 4) ∧
    parse_number (.str "") = some 0 ∧
    parse_number (.str "abc") = some 0 ∧
    parse_number (.str "3.5.2") = some 0 ∧
    parse_number .null = some 0 ∧
    parse_number (.int 1200) = some 1200 ∧
    mkRat 2401 2 = (120050 : ℚ) / 100 ∧ mkRat 10003 4 = (250075 : ℚ) / 100 :=
  ⟨by decide, by decide, by decide, by decide, by decide, by decide, by decide,
   by decide, by decide, by norm_num [Rat.mkRat_eq_divInt, Rat.divInt_eq_div],
   by norm_num [Rat.mkRat_eq_divInt, Rat.divInt_eq_div]⟩

/-- Claim C4: on any failure the `except` branch renders a report whose
five categories are the fixed ones in order, with exactly one synthetic
item named `"Error"` in the first category carrying the exception
message in its `specs` field, empty items in the remaining four, all
subtotals 0, grand total 0, and the error string surfaced alongside; the
branch itself is a total function, so no failure path fails the
request. -/
theorem spec2_c4_error_path (product place msg : String) :
    (errorRender product place msg).categories =
      [⟨"vision_2030", "Vision 2030 & Global Event Diplomacy", [errItem msg], .int 0⟩,
       ⟨"financial_modeling", "Financial Modeling", [], .int 0⟩,
       ⟨"government_relations", "Government Relations", [], .int 0⟩,
       ⟨"global_case_stories", "Global Case Stories", [], .int 0⟩,
       ⟨"hybrid_learning", "Hybrid Learning", [], .int 0⟩] ∧
    (errorRender product place msg).grand_total = 0 ∧
    (errorRender product place msg).error = some msg ∧
    errItem msg = .obj [("name", .str "Error"), ("specs", .str msg),
                        ("quantity", .int 1), ("price", .int 0)] :=
  ⟨rfl, rfl, rfl, rfl⟩

theorem pyGetOpt_cons_ne (k0 k : String) (v : Json) (rest : List (String × Json))
    (h : (k0 == k) = false) : pyGetOpt ((k0, v) :: rest) k = pyGetOpt rest k := by
  simp only [pyGetOpt]
  rw [List.find?_cons_of_neg]
  simp [h]

theorem pyGet_cons_ne (k0 k : String) (v : Json) (rest : List (String × Json)) (d : Json)
    (h : (k0 == k) = false) : pyGet ((k0, v) :: rest) k d = pyGet rest k d := by
  simp only [pyGet, pyGetOpt_cons_ne k0 k v rest h]

theorem normCat_cons_ne (k0 : String) (v : Json) (rest : List (String × Json))
    (key t : String) (h : (k0 == key) = false) :
    normCat ((k0, v) :: rest) key t = normCat rest key t := by
  simp only [normCat, catItemsJ, catSubJ, pyGet_cons_ne k0 key v rest _ h]

theorem normCats_cons_skip (k0 : String) (v : Json) (rest : List (String × Json))
    (ks : List (String × String)) (h : ∀ kt ∈ ks, (k0 == kt.1) = false) :
    normCats ((k0, v) :: rest) ks = normCats rest ks := by
  induction ks with
  | nil => rfl
  | cons kt ks ih =>
    simp only [normCats, normCat_cons_ne k0 v rest kt.1 kt.2 (h kt (by simp))]
    rw [ih (fun x hx => h x (by simp [hx]))]

theorem normalizeReport_cons_skip (k0 : String) (v : Json) (rest : List (String × Json))
    (h : ∀ kt ∈ CATEGORY_KEYS, (k0 == kt.1) = false)
    (hg : (k0 == "grand_total") = false) :
    normalizeReport ((k0, v) :: rest) = normalizeReport rest := by
  simp only [normalizeReport, normCats_cons_skip k0 v rest CATEGORY_KEYS h,
    pyGet_cons_ne k0 "grand_total" v rest _ hg]

/-- Claim C9: when both the initial extraction and the corrective
re-request extraction are falsy (absent or empty) and no exception is
raised, the handler normalizes the fallback mapping and produces the
empty-but-valid skeleton: all five categories present and empty with
zero subtotals, and grand total 0. -/
theorem spec2_c9_skeleton_fallback (product place t1 t2 : String)
    (h1 : pyFalsyOpt (extract_json_from_text t1) = true)
    (h2 : pyFalsyOpt (extract_json_from_text t2) = true) :
    resultsCore product place t1 t2 = some (skeletonCats, 0) := by
  simp only [resultsCore, h1, if_true, h2, asObj, fallbackData]
  rw [normalizeReport_cons_skip _ _ _ (by decide) (by decide),
      normalizeReport_cons_skip _ _ _ (by decide) (by decide)]
  rfl

theorem spec2_c9_skeleton_fallback_witness :
    pyFalsyOpt (extract_json_from_text "no braces here") = true ∧
    pyFalsyOpt (extract_json_from_text "") = true ∧
    resultsCore "Smart Kiosk" "Dubai, UAE" "no braces here" "" = some (skeletonCats, 0) :=
  ⟨rfl, rfl, spec2_c9_skeleton_fallback "Smart Kiosk" "Dubai, UAE" "no braces here" "" rfl rfl⟩

/-- Claim C6: `detect_currency_code` lower-cases and trims its input and
returns the code of the first `CURRENCY_MAP` key (in insertion order)
contained in the text as a substring, `"USD"` for empty input or when no
key matches; in particular the three documented examples hold. -/
theorem spec2_c6_currency_detection (place : String) :
    detect_currency_code "Mumbai, India" = "INR" ∧
    detect_currency_code "" = "USD" ∧
    detect_currency_code "Random Town" = "USD" ∧
    (place ≠ "" →
      (∀ kv ∈ CURRENCY_MAP, containsSub kv.1.data (toLowerStr (pyStrip place.data)) = false) →
      detect_currency_code place = "USD") ∧
    (∀ pre kv post, place ≠ "" → CURRENCY_MAP = pre ++ kv :: post →
      containsSub kv.1.data (toLowerStr (pyStrip place.data)) = true →
      (∀ kv2 ∈ pre, containsSub kv2.1.data (toLowerStr (pyStrip place.data)) = false) →
      detect_currency_code place = kv.2) := by
  refine ⟨by decide, by decide, by decide, ?_, ?_⟩
  · intro hne hnone
    have hbeq : (place == "") = false := by
      simpa [beq_iff_eq] using hne
    simp only [detect_currency_code, hbeq, Bool.false_eq_true, if_false]
    rw [List.find?_eq_none.mpr]
    intro kv hkv
    simp [hnone kv hkv]
  · intro pre kv post hne hmap hkv hpre
    have hbeq : (place == "") = false := by
      simpa [beq_iff_eq] using hne
    simp only [detect_currency_code, hbeq, Bool.false_eq_true, if_false, hmap]
    rw [find?_append_first _ pre kv post (fun x hx => by simp [hpre x hx]) (by simp [hkv])]

theorem spec2_c6_currency_detection_witness :
    detect_currency_code "zzz" = "USD" :=
  (spec2_c6_currency_detection "zzz").2.2.2.1 (by decide) (by decide)

theorem roundHalfEven_nonneg (x : ℚ) (hx : 0 ≤ x) : 0 ≤ roundHalfEven x := by
  have hf : 0 ≤ ⌊x⌋ := Int.floor_nonneg.mpr hx
  simp only [roundHalfEven]
  split
  · exact hf
  · split
    · omega
    · split
      · exact hf
      · omega

theorem round2_shape (x : ℚ) (hx : 0 ≤ x) :
    0 ≤ round2 x ∧ ∃ n : ℕ, round2 x = (n : ℚ) / 100 := by
  have h100 : (0 : ℚ) ≤ x * 100 := by positivity
  have hr : 0 ≤ roundHalfEven (x * 100) := roundHalfEven_nonneg _ h100
  have hrq : (0 : ℚ) ≤ ((roundHalfEven (x * 100) : ℤ) : ℚ) := by exact_mod_cast hr
  rw [round2_eq]
  refine ⟨by positivity, (roundHalfEven (x * 100)).toNat, ?_⟩
  congr 1
  rw [← Int.cast_natCast, Int.toNat_of_nonneg hr]

theorem floatDD_nonneg (l : List Char) (q : ℚ) (h : floatDD l = some q) : 0 ≤ q := by
  unfold floatDD at h
  split at h
  · injection h with h'
    subst h'
    rw [qAdd_eq, qOfNat_eq, qDivN_eq, qOfNat_eq]
    positivity
  · cases h

theorem parseNumStr_shape (l : List Char) (q : ℚ) (h : parseNumStr l = some q) :
    0 ≤ q ∧ ∃ n : ℕ, q = (n : ℚ) / 100 := by
  simp only [parseNumStr] at h
  split at h
  · injection h with h'
    subst h'
    exact ⟨le_refl 0, 0, by norm_num⟩
  · split at h
    · split at h
      · rename_i g1 g2 a b ha hb
        injection h with h'
        subst h'
        have hna := floatDD_nonneg _ _ ha
        have hnb := floatDD_nonneg _ _ hb
        have : (0 : ℚ) ≤ qDivN (qAdd a b) 2 := by
          rw [qDivN_eq, qAdd_eq]
          positivity
        exact ⟨(round2_shape _ this).1, (round2_shape _ this).2⟩
      · cases h
    · split at h
      · injection h with h'
        subst h'
        exact ⟨le_refl 0, 0, by norm_num⟩
      · split at h
        · rename_i v hv
          injection h with h'
          subst h'
          exact ⟨(round2_shape _ (floatDD_nonneg _ _ hv)).1,
                 (round2_shape _ (floatDD_nonneg _ _ hv)).2⟩
        · injection h with h'
          subst h'
          exact ⟨le_refl 0, 0, by norm_num⟩

/-- Claim C1 (amended): `parse_number` returns 0.0 for `None`, for the
empty string and for unparseable strings; numeric input (int or float)
passes through `float(value)` unchanged — unrounded, and negative when
the input is negative; every value it returns for a string input is a
non-negative multiple of 0.01 (two decimal places); and it is not
exception-free: the range branch raises `ValueError` when a matched
bound holds more than one dot, as on `"1.2.3-4"`. -/
theorem spec2_c1_parse_number_amended :
    parse_number .null = some 0 ∧
    (∀ n : ℤ, parse_number (.int n) = some ((n : ℚ))) ∧
    (∀ x : ℚ, parse_number (.float x) = some x) ∧
    parse_number (.str "") = some 0 ∧
    parse_number (.str "abc") = some 0 ∧
    (∀ s q, parse_number (.str s) = some q → 0 ≤ q ∧ ∃ n : ℕ, q = (n : ℚ) / 100) ∧
    parse_number (.str "1.2.3-4") = none := by
  refine ⟨rfl, ?_, fun x => rfl, by decide, by decide, ?_, by decide⟩
  · intro n
    simp [parse_number, qOfInt_eq]
  · intro s q h
    exact parseNumStr_shape s.data q h

theorem spec2_c1_parse_number_amended_witness :
    0 ≤ (7 : ℚ) ∧ ∃ n : ℕ, (7 : ℚ) = (n : ℚ) / 100 :=
  spec2_c1_parse_number_amended.2.2.2.2.2.1 "7" 7 (by decide)

/-- Claim C1 counterexample: the claim asserts every result is a
non-negative float rounded to 2 decimals and that `parse_number` never
raises; but `parse_number(-5)` returns `-5.0`, and on `"1.2.3-4"` the
range branch's unguarded `float("1.2.3")` raises `ValueError`
(modelled as `none`). -/
theorem spec2_c1_parse_number_cex :
    parse_number (.int (-5)) = some (-5) ∧ ¬ (0 ≤ (-5 : ℚ)) ∧
    parse_number (.str "1.2.3-4") = none := by
  refine ⟨?_, by norm_num, by decide⟩
  simp [parse_number, qOfInt_eq]

theorem round2_zero : round2 0 = 0 := by decide

/-- Whether a value is a mapping (`isinstance(x, dict)`). -/
def isObjJson : Json → Bool
  | .obj _ => true
  | _ => false

theorem normCats_cons_some (data : List (String × Json)) (k t : String)
    (rest : List (String × String)) (res : List (Category × ℚ))
    (h : normCats data ((k, t) :: rest) = some res) :
    ∃ p ps, normCat data k t = some p ∧ normCats data rest = some ps ∧ res = p :: ps := by
  simp only [normCats] at h
  split at h
  · cases h
  · rename_i p hp
    split at h
    · cases h
    · rename_i ps hps
      injection h with h'
      exact ⟨p, ps, hp, hps, h'.symm⟩

theorem normCat_some (data : List (String × Json)) (key t : String) (c : Category) (r : ℚ)
    (h : normCat data key t = some (c, r)) :
    c.key = key ∧ c.title = t ∧ c.subtotal = .float (round2 r) ∧
    ∃ items nItems computed,
      pyIter (catItemsJ data key) = some items ∧
      normItemsLoop items [] 0 = some (nItems, computed) ∧
      c.items = nItems ∧ r = resolveSub (catSubJ data key) computed := by
  simp only [normCat] at h
  split at h
  · cases h
  · rename_i items hitems
    split at h
    · cases h
    · rename_i nItems computed hloop
      injection h with h'
      have hc : c = { key := key, title := t, items := nItems,
                      subtotal := .float (round2 (resolveSub (catSubJ data key) computed)) } :=
        (congrArg Prod.fst h').symm
      have hr : r = resolveSub (catSubJ data key) computed := (congrArg Prod.snd h').symm
      subst hc
      exact ⟨rfl, rfl, by rw [hr], items, nItems, computed, hitems, hloop, rfl, hr⟩

theorem catDefaults_of_degraded (data : List (String × Json)) (key : String)
    (h : pyGetOpt data key = none ∨ ∃ v, pyGetOpt data key = some v ∧ isObjJson v = false) :
    catItemsJ data key = .arr [] ∧ catSubJ data key = .int 0 := by
  rcases h with h | ⟨v, hv, hobj⟩
  · simp only [catItemsJ, catSubJ, pyGet, h]
    exact ⟨rfl, rfl⟩
  · cases v <;> simp_all [catItemsJ, catSubJ, pyGet, isObjJson]

theorem normCat_degraded (data : List (String × Json)) (key t : String)
    (hit : catItemsJ data key = .arr []) (hsub : catSubJ data key = .int 0) :
    normCat data key t = some (⟨key, t, [], .float 0⟩, 0) := by
  simp only [normCat, hit, hsub, pyIter, normItemsLoop, resolveSub, pyFloat]
  norm_num [qOfInt_eq, round2_zero]

theorem normalizeReport_some (data : List (String × Json)) (cats : List Category) (gt : ℚ)
    (h : normalizeReport data = some (cats, gt)) :
    ∃ c1 r1 c2 r2 c3 r3 c4 r4 c5 r5,
      normCat data "vision_2030" "Vision 2030 & Global Event Diplomacy" = some (c1, r1) ∧
      normCat data "financial_modeling" "Financial Modeling" = some (c2, r2) ∧
      normCat data "government_relations" "Government Relations" = some (c3, r3) ∧
      normCat data "global_case_stories" "Global Case Stories" = some (c4, r4) ∧
      normCat data "hybrid_learning" "Hybrid Learning" = some (c5, r5) ∧
      cats = [c1, c2, c3, c4, c5] ∧
      (numPos (pyGet data "grand_total" .null) = true →
        ∃ mt, parse_number (pyGet data "grand_total" .null) = some mt ∧ gt = round2 mt) ∧
      (numPos (pyGet data "grand_total" .null) = false →
        gt = round2 (r1 + r2 + r3 + r4 + r5)) := by
  simp only [normalizeReport] at h
  split at h
  · cases h
  · rename_i rs hcs
    rw [show CATEGORY_KEYS = ("vision_2030", "Vision 2030 & Global Event Diplomacy") ::
        ("financial_modeling", "Financial Modeling") ::
        ("government_relations", "Government Relations") ::
        ("global_case_stories", "Global Case Stories") ::
        ("hybrid_learning", "Hybrid Learning") :: [] from rfl] at hcs
    obtain ⟨p1, ps1, hp1, hcs1, hres1⟩ := normCats_cons_some _ _ _ _ _ hcs
    obtain ⟨p2, ps2, hp2, hcs2, hres2⟩ := normCats_cons_some _ _ _ _ _ hcs1
    obtain ⟨p3, ps3, hp3, hcs3, hres3⟩ := normCats_cons_some _ _ _ _ _ hcs2
    obtain ⟨p4, ps4, hp4, hcs4, hres4⟩ := normCats_cons_some _ _ _ _ _ hcs3
    obtain ⟨p5, ps5, hp5, hcs5, hres5⟩ := normCats_cons_some _ _ _ _ _ hcs4
    have hps5 : ps5 = [] := by
      simp only [normCats] at hcs5
      injection hcs5 with h'
      exact h'.symm
    subst hps5 hres5 hres4 hres3 hres2 hres1
    refine ⟨p1.1, p1.2, p2.1, p2.2, p3.1, p3.2, p4.1, p4.2, p5.1, p5.2,
      hp1, hp2, hp3, hp4, hp5, ?_, ?_, ?_⟩
    · split at h
      · split at h
        · injection h with h'
          simpa using (congrArg Prod.fst h').symm
        · cases h
      · injection h with h'
        simpa using (congrArg Prod.fst h').symm
    · intro hpos
      rw [hpos] at h
      simp only [if_true] at h
      split at h
      · rename_i mt hmt
        injection h with h'
        exact ⟨mt, hmt, (congrArg Prod.snd h').symm⟩
      · cases h
    · intro hneg
      rw [hneg] at h
      simp only [Bool.false_eq_true, if_false] at h
      injection h with h'
      have hsum : ([p1, p2, p3, p4, p5] : List (Category × ℚ)).foldl
          (fun a p => qAdd a p.2) 0 = p1.2 + p2.2 + p3.2 + p4.2 + p5.2 := by
        simp [List.foldl, qAdd_eq]
      have h2 : gt = round2 (List.foldl (fun a p => qAdd a p.2) 0 [p1, p2, p3, p4, p5]) := by
        simpa using (congrArg Prod.snd h').symm
      rw [h2, hsum]

/-- Claim C3 (amended): whenever the normalizer returns (it can raise —
see the counterexample — when a category's `items` value is not
iterable or an item's price string makes `parse_number` raise; the
exception is then caught at the route boundary), the report has exactly
the 5 categories of the static key list, in its order, and a category
whose block is absent or not a mapping degrades to an empty items list
and a subtotal of 0. -/
theorem spec2_c3_fixed_categories_amended (data : List (String × Json))
    (cats : List Category) (gt : ℚ) (h : normalizeReport data = some (cats, gt)) :
    cats.map (fun c => (c.key, c.title)) = CATEGORY_KEYS ∧
    cats.length = 5 ∧
    ∀ c ∈ cats,
      (pyGetOpt data c.key = none ∨ ∃ v, pyGetOpt data c.key = some v ∧ isObjJson v = false) →
      c.items = [] ∧ c.subtotal = .float 0 := by
  obtain ⟨c1, r1, c2, r2, c3, r3, c4, r4, c5, r5, h1, h2, h3, h4, h5, hcats, _, _⟩ :=
    normalizeReport_some data cats gt h
  subst hcats
  have s1 := normCat_some _ _ _ _ _ h1
  have s2 := normCat_some _ _ _ _ _ h2
  have s3 := normCat_some _ _ _ _ _ h3
  have s4 := normCat_some _ _ _ _ _ h4
  have s5 := normCat_some _ _ _ _ _ h5
  have onecase : ∀ (ci : Category) (ri : ℚ) (key t : String),
      normCat data key t = some (ci, ri) →
      (pyGetOpt data key = none ∨ ∃ v, pyGetOpt data key = some v ∧ isObjJson v = false) →
      ci.items = [] ∧ ci.subtotal = .float 0 := by
    intro ci ri key t hci hbad
    obtain ⟨hit, hsub⟩ := catDefaults_of_degraded data key hbad
    rw [normCat_degraded data key t hit hsub] at hci
    injection hci with h'
    have hc1 : ci = ⟨key, t, [], .float 0⟩ := (congrArg Prod.fst h').symm
    rw [hc1]
    exact ⟨rfl, rfl⟩
  refine ⟨?_, rfl, ?_⟩
  · simp [CATEGORY_KEYS, s1.1, s1.2.1, s2.1, s2.2.1, s3.1, s3.2.1, s4.1, s4.2.1,
      s5.1, s5.2.1]
  · intro c hc hbad
    simp only [List.mem_cons, List.not_mem_nil, or_false] at hc
    rcases hc with rfl | rfl | rfl | rfl | rfl
    · rw [s1.1] at hbad
      exact onecase _ r1 _ _ h1 hbad
    · rw [s2.1] at hbad
      exact onecase _ r2 _ _ h2 hbad
    · rw [s3.1] at hbad
      exact onecase _ r3 _ _ h3 hbad
    · rw [s4.1] at hbad
      exact onecase _ r4 _ _ h4 hbad
    · rw [s5.1] at hbad
      exact onecase _ r5 _ _ h5 hbad

theorem spec2_c3_fixed_categories_amended_witness :
    skeletonCats.map (fun c => (c.key, c.title)) = CATEGORY_KEYS ∧
    skeletonCats.length = 5 ∧
    ∀ c ∈ skeletonCats,
      (pyGetOpt [] c.key = none ∨ ∃ v, pyGetOpt [] c.key = some v ∧ isObjJson v = false) →
      c.items = [] ∧ c.subtotal = .float 0 :=
  spec2_c3_fixed_categories_amended [] skeletonCats 0 (by rfl)

/-- Claim C3 counterexample: the claim says the normalizer never fails,
but on a mapping whose first category block carries a non-iterable
`items` value the loop `for it in items` raises `TypeError` (modelled as
`none`), so normalization aborts and the route's `except` branch takes
over. -/
theorem spec2_c3_fixed_categories_cex :
    normalizeReport [("vision_2030", .obj [("items", .int 5)])] = none := by rfl

theorem roundHalfEven_intCast (z : ℤ) : roundHalfEven (z : ℚ) = z := by
  have hfloor : ⌊(z : ℚ)⌋ = z := Int.floor_intCast z
  simp only [roundHalfEven, hfloor]
  have hr : qSub (z : ℚ) (qOfInt z) = 0 := by
    rw [qSub_eq, qOfInt_eq]
    ring
  rw [hr]
  have h2 : (0 : ℚ) < mkRat 1 2 := by decide
  simp [h2]

theorem round2_mul100_int (x : ℚ) :
    round2 x * 100 = ((roundHalfEven (x * 100) : ℤ) : ℚ) := by
  rw [round2_eq]
  field_simp

theorem round2_round2 (x : ℚ) : round2 (round2 x) = round2 x := by
  conv_lhs => rw [round2_eq, round2_mul100_int, roundHalfEven_intCast]
  rw [← round2_eq]

/-- Contribution of one item to the claim-side computed subtotal: price
via the Number Parser times the coerced quantity for a dict, 0 for a
skipped non-dict entry. -/
def itemContr (it : Json) : Option ℚ :=
  match it with
  | .obj kvs => (parse_number (pyGet kvs "price" (.int 0))).map (fun p => p * (qtyOf kvs : ℚ))
  | _ => some 0

/-- Claim-side computed subtotal: the sum over the items of price times
quantity. -/
def computedSubSpec : List Json → Option ℚ
  | [] => some 0
  | it :: rest =>
    match itemContr it, computedSubSpec rest with
    | some a, some b => some (a + b)
    | _, _ => none

/-- The subtotal resolution rule as the (amended) claim states it: the
upstream-provided subtotal value when `float()` of it succeeds and is
positive — stored rounded to 2 decimals — and otherwise the sum of item
price times quantity rounded to 2 decimals.  The first component is the
stored subtotal, the second the unrounded resolved value that the grand
total sums. -/
def subtotalSpec (data : List (String × Json)) (key : String) : Option (ℚ × ℚ) :=
  match pyIter (catItemsJ data key) with
  | none => none
  | some items =>
    match computedSubSpec items with
    | none => none
    | some comp =>
      match pyFloat (catSubJ data key) with
      | some x => if 0 < x then some (round2 x, x) else some (round2 comp, round2 comp)
      | none => some (round2 comp, round2 comp)

theorem normItemsLoop_sum (items : List Json) :
    ∀ acc s o t, normItemsLoop items acc s = some (o, t) →
    ∃ u, computedSubSpec items = some u ∧ t = s + u := by
  induction items with
  | nil =>
    intro acc s o t h
    injection h with h'
    have hst : s = t := congrArg Prod.snd h'
    exact ⟨0, rfl, by rw [← hst]; ring⟩
  | cons it rest ih =>
    intro acc s o t h
    cases it
    case obj kvs =>
      simp only [normItemsLoop] at h
      split at h
      · rename_i price hprice
        obtain ⟨u, hu, ht⟩ := ih _ _ _ _ h
        refine ⟨price * (qtyOf kvs : ℚ) + u, ?_, ?_⟩
        · simp [computedSubSpec, itemContr, hprice, hu]
        · rw [ht, qAdd_eq, qMulZ_eq]
          ring
      · cases h
    all_goals
      simp only [normItemsLoop] at h
      obtain ⟨u, hu, ht⟩ := ih _ _ _ _ h
      exact ⟨u, by simp [computedSubSpec, itemContr, hu], ht⟩

theorem normCat_subtotalSpec (data : List (String × Json)) (key t : String)
    (c : Category) (r : ℚ) (h : normCat data key t = some (c, r)) :
    ∃ st, subtotalSpec data key = some (st, r) ∧ c.subtotal = .float st := by
  obtain ⟨-, -, hsub, items, nItems, computed, hitems, hloop, -, hr⟩ :=
    normCat_some data key t c r h
  obtain ⟨u, hu, ht⟩ := normItemsLoop_sum items [] 0 nItems computed hloop
  have hcomp : computedSubSpec items = some computed := by
    rw [hu, ht, zero_add]
  simp only [subtotalSpec, hitems, hcomp]
  simp only [resolveSub] at hr
  generalize hfx : pyFloat (catSubJ data key) = fx at hr ⊢
  cases fx with
  | none =>
    dsimp only at hr ⊢
    exact ⟨round2 computed, by rw [hr], by rw [hsub, hr, round2_round2]⟩
  | some x =>
    dsimp only at hr ⊢
    by_cases hpos : x ≤ 0
    · rw [if_pos hpos] at hr
      rw [if_neg (not_lt.mpr hpos)]
      exact ⟨round2 computed, by rw [hr], by rw [hsub, hr, round2_round2]⟩
    · rw [if_neg hpos] at hr
      rw [if_pos (lt_of_not_le hpos)]
      exact ⟨round2 x, by rw [hr], by rw [hsub, hr]⟩

/-- Claim C2 (amended): in the normalized report each category's stored
subtotal is `round2` of the upstream-provided subtotal when that value
parses (`float()`) as a positive number — not the upstream value exactly
— and otherwise `round2` of the sum of item price×quantity; and
`grand_total` is `round2` of the sum of the five unrounded resolved
subtotals, unless the upstream mapping supplies a positive numeric
`grand_total`, in which case `round2(parse_number(g))` is used — again
not the upstream value exactly. -/
theorem spec2_c2_subtotal_grand_amended (data : List (String × Json))
    (cats : List Category) (gt : ℚ) (h : normalizeReport data = some (cats, gt)) :
    ∃ p1 p2 p3 p4 p5 : ℚ × ℚ,
      subtotalSpec data "vision_2030" = some p1 ∧
      subtotalSpec data "financial_modeling" = some p2 ∧
      subtotalSpec data "government_relations" = some p3 ∧
      subtotalSpec data "global_case_stories" = some p4 ∧
      subtotalSpec data "hybrid_learning" = some p5 ∧
      cats.map (fun c => c.subtotal) =
        [.float p1.1, .float p2.1, .float p3.1, .float p4.1, .float p5.1] ∧
      (numPos (pyGet data "grand_total" .null) = true →
        ∃ mt, parse_number (pyGet data "grand_total" .null) = some mt ∧ gt = round2 mt) ∧
      (numPos (pyGet data "grand_total" .null) = false →
        gt = round2 (p1.2 + p2.2 + p3.2 + p4.2 + p5.2)) := by
  obtain ⟨c1, r1, c2, r2, c3, r3, c4, r4, c5, r5, h1, h2, h3, h4, h5, hcats, hov, hcomp⟩ :=
    normalizeReport_some data cats gt h
  obtain ⟨st1, hsp1, hsub1⟩ := normCat_subtotalSpec _ _ _ _ _ h1
  obtain ⟨st2, hsp2, hsub2⟩ := normCat_subtotalSpec _ _ _ _ _ h2
  obtain ⟨st3, hsp3, hsub3⟩ := normCat_subtotalSpec _ _ _ _ _ h3
  obtain ⟨st4, hsp4, hsub4⟩ := normCat_subtotalSpec _ _ _ _ _ h4
  obtain ⟨st5, hsp5, hsub5⟩ := normCat_subtotalSpec _ _ _ _ _ h5
  subst hcats
  exact ⟨(st1, r1), (st2, r2), (st3, r3), (st4, r4), (st5, r5),
    hsp1, hsp2, hsp3, hsp4, hsp5,
    by simp [hsub1, hsub2, hsub3, hsub4, hsub5], hov, hcomp⟩

/-- Concrete data for the C2 witness: one category with a single item
priced `"100"` with quantity 2 and no subtotal field. -/
def c2WitnessData : List (String × Json) :=
  [("vision_2030", .obj [("items", .arr [.obj [("price", .str "100"), ("quantity", .int 2)]])])]

/-- The categories `normalizeReport` computes on `c2WitnessData`. -/
def c2WitnessCats : List Category :=
  [⟨"vision_2030", "Vision 2030 & Global Event Diplomacy",
    [.obj [("name", .str ""), ("specs", .str ""), ("quantity", .int 2),
           ("price", .float 100)]], .float 200⟩,
   ⟨"financial_modeling", "Financial Modeling", [], .float 0⟩,
   ⟨"government_relations", "Government Relations", [], .float 0⟩,
   ⟨"global_case_stories", "Global Case Stories", [], .float 0⟩,
   ⟨"hybrid_learning", "Hybrid Learning", [], .float 0⟩]

theorem spec2_c2_subtotal_grand_amended_witness :
    ∃ p1 p2 p3 p4 p5 : ℚ × ℚ,
      subtotalSpec c2WitnessData "vision_2030" = some p1 ∧
      subtotalSpec c2WitnessData "financial_modeling" = some p2 ∧
      subtotalSpec c2WitnessData "government_relations" = some p3 ∧
      subtotalSpec c2WitnessData "global_case_stories" = some p4 ∧
      subtotalSpec c2WitnessData "hybrid_learning" = some p5 ∧
      c2WitnessCats.map (fun c => c.subtotal) =
        [.float p1.1, .float p2.1, .float p3.1, .float p4.1, .float p5.1] ∧
      (numPos (pyGet c2WitnessData "grand_total" .null) = true →
        ∃ mt, parse_number (pyGet c2WitnessData "grand_total" .null) = some mt ∧
          (200 : ℚ) = round2 mt) ∧
      (numPos (pyGet c2WitnessData "grand_total" .null) = false →
        (200 : ℚ) = round2 (p1.2 + p2.2 + p3.2 + p4.2 + p5.2)) :=
  spec2_c2_subtotal_grand_amended c2WitnessData c2WitnessCats 200 (by rfl)

/-- Claim C2 counterexample: the claim says a positive upstream subtotal
is used as the category subtotal; with upstream subtotal 10.004 (a
positive number) the stored subtotal is `round(10.004, 2) = 10.0`, not
10.004. -/
theorem spec2_c2_subtotal_grand_cex :
    (normalizeReport [("vision_2030", .obj [("subtotal", .float (mkRat 10004 1000))])]).map
        (fun r => r.1.map (fun c => c.subtotal)) =
      some [.float 10, .float 0, .float 0, .float 0, .float 0] ∧
    (mkRat 10004 1000 : ℚ) ≠ 10 ∧ 0 < (mkRat 10004 1000 : ℚ) :=
  ⟨rfl, by decide, by decide⟩

theorem dropWhile_head_not (p : Char → Bool) (l : List Char) :
    l.dropWhile p = [] ∨ ∃ c t, l.dropWhile p = c :: t ∧ p c = false := by
  induction l with
  | nil => exact Or.inl rfl
  | cons c t ih =>
    by_cases h : p c
    · simpa [List.dropWhile_cons, h] using ih
    · exact Or.inr ⟨c, t, by simp [List.dropWhile_cons, h], by simpa using h⟩

theorem regionFind_some (l r : List Char) (h : regionFind l = some r) :
    (∃ mid, r = '{' :: mid) ∧ (∃ t2, r = t2 ++ ['}']) ∧ ∃ p post, l = p ++ r ++ post := by
  simp only [regionFind] at h
  split at h
  · cases h
  · rename_i hne
    split at h
    · cases h
    · rename_i hr2
      injection h with h'
      subst h'
      obtain ⟨t1, ht1⟩ : ∃ t, l.dropWhile (fun c => !(c == '{')) = '{' :: t := by
        rcases dropWhile_head_not (fun c => !(c == '{')) l with h0 | ⟨c, t, hct, hpc⟩
        · exact absurd h0 hne
        · have hc : c = '{' := by simpa using hpc
          exact ⟨t, by rw [hct, hc]⟩
      obtain ⟨t2, ht2⟩ : ∃ t,
          (l.dropWhile (fun c => !(c == '{'))).reverse.dropWhile (fun c => !(c == '}')) =
            '}' :: t := by
        rcases dropWhile_head_not (fun c => !(c == '}'))
            (l.dropWhile (fun c => !(c == '{'))).reverse with h0 | ⟨c, t, hct, hpc⟩
        · rw [h0] at hr2
          simp at hr2
        · have hc : c = '}' := by simpa using hpc
          exact ⟨t, by rw [hct, hc]⟩
      generalize hL1 : l.dropWhile (fun c => !(c == '{')) = l1 at ht1 ht2 ⊢
      generalize hR2 : l1.reverse.dropWhile (fun c => !(c == '}')) = r2 at ht2 ⊢
      have hsplit : l1.reverse = l1.reverse.takeWhile (fun c => !(c == '}')) ++ r2 := by
        rw [← hR2]
        exact (List.takeWhile_append_dropWhile _ _).symm
      have hl1eq : l1 = r2.reverse ++ (l1.reverse.takeWhile (fun c => !(c == '}'))).reverse := by
        have hh := congrArg List.reverse hsplit
        simpa using hh
      obtain ⟨d, u, hdu⟩ : ∃ d u, r2.reverse = d :: u := by
        rcases hx : r2.reverse with _ | ⟨d, u⟩
        · rw [ht2] at hx
          simp at hx
        · exact ⟨d, u, rfl⟩
      have hinj := hl1eq
      rw [ht1, hdu] at hinj
      have hd : '{' = d := by
        injection hinj
      refine ⟨⟨u, by rw [hdu, ← hd]⟩, ⟨t2.reverse, by rw [ht2]; simp⟩,
        l.takeWhile (fun c => !(c == '{')),
        (l1.reverse.takeWhile (fun c => !(c == '}'))).reverse, ?_⟩
      conv_lhs =>
        rw [← List.takeWhile_append_dropWhile (fun c => !(c == '{')) l, hL1, hl1eq]
      simp

theorem extract_region_decomp (l r : List Char) (h : regionFind l = some r) :
    ∃ p m s, l = p ++ '{' :: (m ++ '}' :: s) := by
  obtain ⟨⟨mid, hmid⟩, ⟨t2, ht2⟩, p, post, hl⟩ := regionFind_some l r h
  rcases t2 with _ | ⟨c0, t2'⟩
  · rw [hmid] at ht2
    simp at ht2
  · have hmid2 : mid = t2' ++ ['}'] := by
      rw [hmid] at ht2
      exact (List.cons_eq_cons.mp ht2).2
    refine ⟨p, t2', post, ?_⟩
    rw [hl, hmid, hmid2]
    simp

set_option maxHeartbeats 1600000 in
theorem parseValue_obj (f : ℕ) (tail : List Char) (v : Json) (rest : List Char)
    (h : parseValue f ('{' :: tail) = some (v, rest)) : ∃ kvs, v = .obj kvs := by
  cases f with
  | zero => cases h
  | succ f =>
    simp only [parseValue] at h
    split at h
    · injection h with h'
      exact ⟨[], (congrArg Prod.fst h').symm⟩
    · split at h
      · rename_i kvs r3 hm
        injection h with h'
        exact ⟨kvs, (congrArg Prod.fst h').symm⟩
      · cases h

theorem jsonLoads_obj (tail : List Char) (v : Json)
    (h : jsonLoads ('{' :: tail) = some v) : ∃ kvs, v = .obj kvs := by
  simp only [jsonLoads] at h
  have hskip : skipWs ('{' :: tail) = '{' :: tail := by
    simp [skipWs, List.dropWhile_cons, jsonWs]
  rw [hskip] at h
  split at h
  · rename_i v2 rest2 hpv
    split at h
    · injection h with h'
      subst h'
      exact parseValue_obj _ _ _ _ hpv
    · cases h
  · cases h

theorem replaceSquote_brace (cs : List Char) :
    replaceSquote ('{' :: cs) = '{' :: replaceSquote cs := by
  simp [replaceSquote]
  decide

theorem subTrailingAux_not_comma (close : Char) (f : ℕ) (c : Char) (cs : List Char)
    (h : (c == ',') = false) :
    subTrailingAux close (f + 1) (c :: cs) = c :: subTrailingAux close f cs := by
  simp [subTrailingAux, h]

theorem subTrailing_brace (close : Char) (cs : List Char) :
    ∃ t2, subTrailing close ('{' :: cs) = '{' :: t2 := by
  refine ⟨subTrailingAux close (cs.length + 1) cs, ?_⟩
  show subTrailingAux close (('{' :: cs).length + 1) ('{' :: cs) = _
  rw [List.length_cons]
  exact subTrailingAux_not_comma close (cs.length + 1) '{' cs (by decide)

theorem extract_shape (t : String) :
    extract_json_from_text t = none ∨
      ∃ kvs, extract_json_from_text t = some (.obj kvs) := by
  unfold extract_json_from_text
  split
  · exact Or.inl rfl
  · split
    · exact Or.inl rfl
    · rename_i s hregion
      obtain ⟨⟨mid, hmid⟩, -, -⟩ := regionFind_some t.data s hregion
      subst hmid
      split
      · rename_i v hjl
        exact Or.inr ((jsonLoads_obj _ _ hjl).imp (fun kvs hk => by rw [hk]))
      · rw [replaceSquote_brace]
        obtain ⟨t1, ht1⟩ := subTrailing_brace '}' (replaceSquote mid)
        rw [ht1]
        obtain ⟨t2, ht2⟩ := subTrailing_brace ']' t1
        rw [ht2]
        cases hjl2 : jsonLoads ('{' :: t2) with
        | none => exact Or.inl rfl
        | some v =>
          exact Or.inr ((jsonLoads_obj _ _ hjl2).imp (fun kvs hk => by rw [hk]))

/-- Claim C5 (amended): `extract_json_from_text` never raises and returns
either a parsed mapping or `None`; it returns `None` for empty input and
whenever the text has no `{`-before-`}` region; it repairs the trailing
comma in `noise {"a":1,} more noise` to give `{"a": 1}`; and on the
single-quote edge case `{"a": "b\'s"}` the strict parse rejects the
invalid `\'` escape and the quote repair rewrites it into `{"a": "b\"s"}`
— the escaped content IS corrupted (the apostrophe becomes a double
quote), it is not preserved. -/
theorem spec2_c5_extractor_amended (t : String) :
    extract_json_from_text "" = none ∧
    extract_json_from_text "no braces here" = none ∧
    extract_json_from_text "noise \x7b\"a\":1,\x7d more noise" =
      some (.obj [("a", .int 1)]) ∧
    extract_json_from_text quoteEdgeText = some (.obj [("a", .str "b\"s")]) ∧
    (extract_json_from_text t = none ∨
      ∃ kvs, extract_json_from_text t = some (.obj kvs)) ∧
    (extract_json_from_text t ≠ none →
      ∃ p m s, t.data = p ++ '{' :: (m ++ '}' :: s)) := by
  refine ⟨rfl, rfl, rfl, rfl, extract_shape t, ?_⟩
  intro hne
  rcases hreg : regionFind t.data with - | r
  · exfalso
    apply hne
    unfold extract_json_from_text
    split
    · rfl
    · rw [hreg]
  · exact extract_region_decomp t.data r hreg

theorem spec2_c5_extractor_amended_witness :
    extract_json_from_text "a\x7b\"k\":1\x7db" ≠ none ∧
    ∃ p m s, ("a\x7b\"k\":1\x7db" : String).data = p ++ '{' :: (m ++ '}' :: s) := by
  have hne : extract_json_from_text "a\x7b\"k\":1\x7db" ≠ none := by
    intro h
    rw [show extract_json_from_text "a\x7b\"k\":1\x7db" =
      some (.obj [("k", .int 1)]) from rfl] at h
    cases h
  exact ⟨hne, (spec2_c5_extractor_amended "a\x7b\"k\":1\x7db").2.2.2.2.2 hne⟩

/-- Claim C5 counterexample: on the documented single-quote edge case the
repair does corrupt the string content: the extracted value carries
`b"s`, not the original `b's`. -/
theorem spec2_c5_extractor_cex :
    extract_json_from_text quoteEdgeText = some (.obj [("a", .str "b\"s")]) ∧
    Json.str "b\"s" ≠ Json.str (String.mk ['b', squote, 's']) := by
  refine ⟨rfl, ?_⟩
  intro h
  injection h with h'
  exact absurd h' (by decide)

theorem digit_not_pySpace (c : Char) (h : c.isDigit = true) : isPySpace c = false := by
  by_contra hc
  have hc2 : isPySpace c = true := by
    revert hc
    cases isPySpace c <;> simp
  simp only [isPySpace, Bool.or_eq_true, beq_iff_eq] at hc2
  rcases hc2 with ((((rfl | rfl) | rfl) | rfl) | rfl) | rfl <;> exact absurd h (by decide)

theorem rangeClass_not_pySpace (c : Char) (h : isRangeClass c = true) : isPySpace c = false := by
  simp only [isRangeClass, Bool.or_eq_true, beq_iff_eq] at h
  rcases h with (hd | rfl) | rfl
  · exact digit_not_pySpace c hd
  · decide
  · decide

theorem pySpace_not_rangeClass (c : Char) (h : isPySpace c = true) : isRangeClass c = false := by
  cases hr : isRangeClass c
  · rfl
  · rw [rangeClass_not_pySpace c hr] at h
    cases h

theorem dash_not_rangeClass (c : Char) (h : isDash c = true) : isRangeClass c = false := by
  simp only [isDash, Bool.or_eq_true, beq_iff_eq] at h
  rcases h with rfl | rfl <;> decide

theorem dash_not_pySpace (c : Char) (h : isDash c = true) : isPySpace c = false := by
  simp only [isDash, Bool.or_eq_true, beq_iff_eq] at h
  rcases h with rfl | rfl <;> decide

theorem dropWhile_append_cons (p : Char → Bool) (l1 : List Char) (a0 : Char)
    (rest : List Char) (h : p a0 = false) :
    List.dropWhile p (l1 ++ a0 :: rest) = List.dropWhile p l1 ++ a0 :: rest := by
  induction l1 with
  | nil => simp [List.dropWhile_cons, h]
  | cons c t ih =>
    by_cases hc : p c
    · simp [List.dropWhile_cons, hc, ih]
    · simp [List.dropWhile_cons, hc]

theorem takeWhile_append_stop (p : Char → Bool) (l1 l2 : List Char)
    (h1 : ∀ c ∈ l1, p c = true)
    (h2 : l2 = [] ∨ ∃ c t, l2 = c :: t ∧ p c = false) :
    (l1 ++ l2).takeWhile p = l1 ∧ (l1 ++ l2).dropWhile p = l2 := by
  induction l1 with
  | nil =>
    rcases h2 with rfl | ⟨c, t, rfl, hc⟩
    · simp
    · simp [List.takeWhile_cons, List.dropWhile_cons, hc]
  | cons c t ih =>
    have hc : p c = true := h1 c (by simp)
    have ih2 := ih (fun x hx => h1 x (by simp [hx]))
    simp [List.takeWhile_cons, List.dropWhile_cons, hc, ih2.1, ih2.2]

theorem mem_of_mem_dropWhile (p : Char → Bool) (l : List Char) (c : Char)
    (h : c ∈ l.dropWhile p) : c ∈ l := by
  induction l with
  | nil => simp at h
  | cons x t ih =>
    by_cases hx : p x
    · simp only [List.dropWhile_cons, hx, if_true] at h
      exact List.mem_cons_of_mem x (ih h)
    · simp only [List.dropWhile_cons, hx, if_false] at h
      exact h

theorem reverse_dropWhile_isPrefix (p : Char → Bool) (l : List Char) :
    ∃ k, (l.reverse.dropWhile p).reverse = l.take k := by
  have hsplit : l.reverse = l.reverse.takeWhile p ++ l.reverse.dropWhile p :=
    (List.takeWhile_append_dropWhile _ _).symm
  refine ⟨(l.reverse.dropWhile p).length, ?_⟩
  have : l = (l.reverse.dropWhile p).reverse ++ (l.reverse.takeWhile p).reverse := by
    conv_lhs => rw [← List.reverse_reverse l, hsplit]
    rw [List.reverse_append]
  conv_rhs => rw [this]
  rw [List.take_append_of_le_length (by simp)]
  simp

theorem pyStrip_decomp (pre core post : List Char)
    (hcore_head : ∃ c t, core = c :: t ∧ isPySpace c = false)
    (hcore_last : ∃ c t, core.reverse = c :: t ∧ isPySpace c = false) :
    pyStrip (pre ++ core ++ post) =
      pre.dropWhile isPySpace ++ core ++ (post.reverse.dropWhile isPySpace).reverse := by
  obtain ⟨c0, t0, hc0, hws0⟩ := hcore_head
  obtain ⟨cl, tl, hcl, hwsl⟩ := hcore_last
  have hcore : core = tl.reverse ++ [cl] := by
    have := congrArg List.reverse hcl
    simpa using this
  unfold pyStrip
  have h1 : (pre ++ core ++ post).dropWhile isPySpace
      = pre.dropWhile isPySpace ++ (core ++ post) := by
    rw [hc0, List.append_assoc, List.cons_append,
      dropWhile_append_cons _ _ _ _ hws0]
  rw [h1]
  have h2 : (pre.dropWhile isPySpace ++ (core ++ post)).reverse
      = post.reverse ++ (cl :: (tl ++ (pre.dropWhile isPySpace).reverse)) := by
    rw [hcore]
    simp
  rw [h2, dropWhile_append_cons _ _ _ _ hwsl]
  conv_rhs => rw [hcore]
  simp

theorem rangeFind_skip (pre rest : List Char)
    (hpre : ∀ c ∈ pre, c.isDigit = false ∧ (c == '\n') = false) :
    rangeFind (pre ++ rest) = rangeFind rest := by
  induction pre with
  | nil => rfl
  | cons c t ih =>
    have h1 := (hpre c (by simp)).1
    have h2 := (hpre c (by simp)).2
    have ih2 := ih (fun x hx => hpre x (by simp [hx]))
    rw [List.cons_append]
    show (match tryRangeAt (c :: (t ++ rest)) with
      | some r => some r
      | none => if c == '\n' then none else rangeFind (t ++ rest)) = rangeFind rest
    have htr : tryRangeAt (c :: (t ++ rest)) = none := by
      simp [tryRangeAt, h1]
    rw [htr, h2]
    simpa using ih2

theorem tryRangeAt_match (a0 : Char) (a' w1 : List Char) (d : Char) (w2 : List Char)
    (b0 : Char) (b' post : List Char)
    (ha0 : a0.isDigit = true)
    (ha' : ∀ c ∈ a', isRangeClass c = true)
    (hw1 : ∀ c ∈ w1, isPySpace c = true)
    (hd : isDash d = true)
    (hw2 : ∀ c ∈ w2, isPySpace c = true)
    (hb0 : b0.isDigit = true)
    (hb' : ∀ c ∈ b', isRangeClass c = true)
    (hpost : post = [] ∨ ∃ p0 p', post = p0 :: p' ∧ isRangeClass p0 = false) :
    tryRangeAt (a0 :: (a' ++ w1 ++ [d] ++ w2 ++ b0 :: b' ++ post)) =
      some (a0 :: a', b0 :: b') := by
  have hstop1 : (w1 ++ [d] ++ w2 ++ b0 :: b' ++ post) = [] ∨
      ∃ c t, (w1 ++ [d] ++ w2 ++ b0 :: b' ++ post) = c :: t ∧ isRangeClass c = false := by
    rcases w1 with _ | ⟨x, xs⟩
    · exact Or.inr ⟨d, w2 ++ (b0 :: b') ++ post, by simp, dash_not_rangeClass d hd⟩
    · exact Or.inr ⟨x, xs ++ [d] ++ w2 ++ (b0 :: b') ++ post, by simp,
        pySpace_not_rangeClass x (hw1 x (by simp))⟩
  have hsplit1 := takeWhile_append_stop isRangeClass a'
    (w1 ++ [d] ++ w2 ++ b0 :: b' ++ post) ha' hstop1
  have hstop2 : ([d] ++ w2 ++ b0 :: b' ++ post) = [] ∨
      ∃ c t, ([d] ++ w2 ++ b0 :: b' ++ post) = c :: t ∧ isPySpace c = false :=
    Or.inr ⟨d, w2 ++ (b0 :: b') ++ post, by simp, dash_not_pySpace d hd⟩
  have hsplit2 := takeWhile_append_stop isPySpace w1
    ([d] ++ w2 ++ b0 :: b' ++ post) hw1 hstop2
  have hstop3 : (b0 :: b' ++ post) = [] ∨
      ∃ c t, (b0 :: b' ++ post) = c :: t ∧ isPySpace c = false :=
    Or.inr ⟨b0, b' ++ post, by simp, digit_not_pySpace b0 hb0⟩
  have hsplit3 := takeWhile_append_stop isPySpace w2 (b0 :: b' ++ post) hw2 hstop3
  have hsplit4 := takeWhile_append_stop isRangeClass b' post hb' hpost
  simp only [tryRangeAt, ha0, if_true]
  have e1 : (a' ++ w1 ++ [d] ++ w2 ++ b0 :: b' ++ post)
      = a' ++ (w1 ++ [d] ++ w2 ++ b0 :: b' ++ post) := by simp
  rw [e1, hsplit1.1, hsplit1.2]
  have e2 : (w1 ++ [d] ++ w2 ++ b0 :: b' ++ post)
      = w1 ++ ([d] ++ w2 ++ b0 :: b' ++ post) := by simp
  have e3 : (w2 ++ b0 :: b' ++ post) = w2 ++ (b0 :: b' ++ post) := by simp
  rw [e2, hsplit2.2, List.singleton_append]
  split
  · rename_i d2 cs2 heq
    injection heq with h1 h2
    subst h1
    subst h2
    simp only [hd, if_true, List.append_eq]
    rw [e3, hsplit3.2]
    split
    · rename_i e0 cs3 heq2
      injection heq2 with h3 h4
      subst h3
      subst h4
      simp only [hb0, if_true, List.append_eq, hsplit4.1]
    · rename_i heq2
      exact absurd heq2 (by simp)
  · rename_i heq
    exact absurd heq (by simp)

theorem isEmpty_append_cons (xs : List Char) (c : Char) (zs ys : List Char) :
    ((xs ++ c :: zs) ++ ys).isEmpty = false := by
  cases xs <;> rfl

theorem rangeFind_cons_found (c : Char) (cs : List Char) (r : List Char × List Char)
    (h : tryRangeAt (c :: cs) = some r) : rangeFind (c :: cs) = some r := by
  show (match tryRangeAt (c :: cs) with
    | some r => some r
    | none => if c == '\n' then none else rangeFind cs) = some r
  rw [h]

theorem parseNumStr_range (l g1 g2 : List Char) (va vb : ℚ)
    (hne : (pyStrip l).isEmpty = false)
    (hrf : rangeFind (pyStrip l) = some (g1, g2))
    (hva : floatDD (g1.filter (fun c => !(c == ','))) = some va)
    (hvb : floatDD (g2.filter (fun c => !(c == ','))) = some vb) :
    parseNumStr l = some (round2 (qDivN (qAdd va vb) 2)) := by
  simp only [parseNumStr]
  rw [if_neg (by simp [hne])]
  split
  · rename_i g1x g2x heq
    rw [hrf] at heq
    injection heq with hp
    injection hp with hg1 hg2
    subst hg1
    subst hg2
    split
    · rename_i a b ha hb
      rw [hva] at ha
      rw [hvb] at hb
      injection ha with ha2
      injection hb with hb2
      subst ha2
      subst hb2
      rfl
    · rename_i hnc
      exact (hnc va vb hva hvb).elim
  · rename_i heq
    rw [hrf] at heq
    cases heq

/-- Claim C10 (amended): the range branch of `parse_number` does apply to
embedded ranges — for a string decomposing as a digit-free, newline-free
region, then a digit-led `[\d,\.]` run, optional whitespace, a dash or
en-dash, optional whitespace, a second digit-led run, and a tail that
does not extend the second run, `parse_number` returns the rounded mean
of the two bounds (with commas stripped); but the lazy prefix `.*?` of
the regex does not match a newline, so the region before the range must
be newline-free, and the leftmost match wins (the here required absence
of digits before the range ensures it is the leftmost). -/
theorem spec2_c10_embedded_range_amended
    (pre : List Char) (a0 : Char) (a' w1 : List Char) (d : Char) (w2 : List Char)
    (b0 : Char) (b' post : List Char) (va vb : ℚ)
    (hpre : ∀ c ∈ pre, c.isDigit = false ∧ (c == '\n') = false)
    (ha0 : a0.isDigit = true)
    (ha' : ∀ c ∈ a', isRangeClass c = true)
    (hw1 : ∀ c ∈ w1, isPySpace c = true)
    (hd : isDash d = true)
    (hw2 : ∀ c ∈ w2, isPySpace c = true)
    (hb0 : b0.isDigit = true)
    (hb' : ∀ c ∈ b', isRangeClass c = true)
    (hpost : post = [] ∨ ∃ p0 p2, post = p0 :: p2 ∧ isRangeClass p0 = false)
    (hva : floatDD ((a0 :: a').filter (fun c => !(c == ','))) = some va)
    (hvb : floatDD ((b0 :: b').filter (fun c => !(c == ','))) = some vb) :
    parse_number (.str (String.mk
        (pre ++ (a0 :: a') ++ w1 ++ [d] ++ w2 ++ (b0 :: b') ++ post)))
      = some (round2 (qDivN (qAdd va vb) 2)) := by
  have hcore_head : ∃ c t,
      (a0 :: (a' ++ w1 ++ [d] ++ w2 ++ b0 :: b')) = c :: t ∧ isPySpace c = false :=
    ⟨a0, _, rfl, digit_not_pySpace a0 ha0⟩
  have hcore_last : ∃ c t,
      (a0 :: (a' ++ w1 ++ [d] ++ w2 ++ b0 :: b')).reverse = c :: t ∧
        isPySpace c = false := by
    rcases hrev : b'.reverse with _ | ⟨cl, tl⟩
    · have hb'nil : b' = [] := by
        have h2 := congrArg List.reverse hrev
        simpa using h2
      subst hb'nil
      refine ⟨b0, (a0 :: (a' ++ w1 ++ [d] ++ w2)).reverse, ?_,
        digit_not_pySpace b0 hb0⟩
      have e : (a0 :: (a' ++ w1 ++ [d] ++ w2 ++ b0 :: ([] : List Char)))
          = (a0 :: (a' ++ w1 ++ [d] ++ w2)) ++ [b0] := by simp
      rw [e, List.reverse_append]
      rfl
    · have hb'eq : b' = tl.reverse ++ [cl] := by
        have h2 := congrArg List.reverse hrev
        simpa using h2
      have hcl : cl ∈ b' := by rw [hb'eq]; simp
      refine ⟨cl, (a0 :: (a' ++ w1 ++ [d] ++ w2 ++ b0 :: tl.reverse)).reverse, ?_,
        rangeClass_not_pySpace cl (hb' cl hcl)⟩
      have e : (a0 :: (a' ++ w1 ++ [d] ++ w2 ++ b0 :: b'))
          = (a0 :: (a' ++ w1 ++ [d] ++ w2 ++ b0 :: tl.reverse)) ++ [cl] := by
        rw [hb'eq]; simp
      rw [e, List.reverse_append]
      rfl
  have eassoc : pre ++ (a0 :: a') ++ w1 ++ [d] ++ w2 ++ (b0 :: b') ++ post
      = pre ++ (a0 :: (a' ++ w1 ++ [d] ++ w2 ++ b0 :: b')) ++ post := by simp
  have hstrip := pyStrip_decomp pre (a0 :: (a' ++ w1 ++ [d] ++ w2 ++ b0 :: b')) post
    hcore_head hcore_last
  obtain ⟨k, hk⟩ := reverse_dropWhile_isPrefix isPySpace post
  have hpost2 : post.take k = [] ∨
      ∃ p0 p2, post.take k = p0 :: p2 ∧ isRangeClass p0 = false := by
    rcases hpost with rfl | ⟨p0, p2, rfl, hp0⟩
    · left; simp
    · cases k with
      | zero => left; rfl
      | succ k2 => right; exact ⟨p0, p2.take k2, rfl, hp0⟩
  have hpre2 : ∀ c ∈ pre.dropWhile isPySpace, c.isDigit = false ∧ (c == '\n') = false :=
    fun c hc => hpre c (mem_of_mem_dropWhile _ _ _ hc)
  show parseNumStr (pre ++ (a0 :: a') ++ w1 ++ [d] ++ w2 ++ (b0 :: b') ++ post)
      = some (round2 (qDivN (qAdd va vb) 2))
  rw [eassoc]
  have e2 : pre.dropWhile isPySpace ++ (a0 :: (a' ++ w1 ++ [d] ++ w2 ++ b0 :: b'))
        ++ post.take k
      = pre.dropWhile isPySpace
        ++ (a0 :: (a' ++ w1 ++ [d] ++ w2 ++ b0 :: b' ++ post.take k)) := by simp
  refine parseNumStr_range _ (a0 :: a') (b0 :: b') va vb ?_ ?_ hva hvb
  · rw [hstrip, hk]
    exact isEmpty_append_cons _ _ _ _
  · rw [hstrip, hk, e2,
      rangeFind_skip (pre.dropWhile isPySpace)
        (a0 :: (a' ++ w1 ++ [d] ++ w2 ++ b0 :: b' ++ post.take k)) hpre2]
    exact rangeFind_cons_found _ _ _
      (tryRangeAt_match a0 a' w1 d w2 b0 b' (post.take k)
        ha0 ha' hw1 hd hw2 hb0 hb' hpost2)

theorem spec2_c10_embedded_range_amended_witness :
    parse_number (.str "around 1000-2000 total") = some 1500 := by
  have h := spec2_c10_embedded_range_amended
    "around ".data '1' "000".data [] '-' [] '2' "000".data " total".data
    1000 2000
    (by decide) (by decide) (by decide) (by decide) (by decide) (by decide)
    (by decide) (by decide)
    (Or.inr ⟨' ', "total".data, rfl, by decide⟩)
    (by decide) (by decide)
  have e1 : String.mk ("around ".data ++ ('1' :: "000".data) ++ [] ++ ['-'] ++ []
      ++ ('2' :: "000".data) ++ " total".data) = "around 1000-2000 total" := rfl
  have e2 : round2 (qDivN (qAdd 1000 2000) 2) = 1500 := by decide
  rw [e1, e2] at h
  exact h

/-- Claim C10 counterexample: the claim quantifies over every string
containing a dash-separated pair of digit runs, but `re.match`'s lazy
prefix `.*?` cannot cross a newline, so in `"a\n1-2"` the range after
the newline is never matched: the character-stripping branch runs
instead and yields 12.0, not the mean 1.5. -/
theorem spec2_c10_embedded_range_cex :
    parse_number (.str (String.mk ['a', '\n', '1', '-', '2'])) = some 12 ∧
      (12 : ℚ) ≠ round2 (qDivN (qAdd 1 2) 2) := by
  constructor
  · decide
  · decide

theorem digitChar_isDigit (m : ℕ) (h : m < 10) : (digitChar m).isDigit = true := by
  interval_cases m <;> decide

theorem digitVal_digitChar (m : ℕ) (h : m < 10) : digitVal (digitChar m) = m := by
  interval_cases m <;> decide

theorem digit_ne_dot (c : Char) (h : c.isDigit = true) : (c == '.') = false := by
  cases hb : (c == '.')
  · rfl
  · have hce : c = '.' := by simpa using hb
    subst hce
    exact absurd h (by decide)

theorem digit_ne_comma (c : Char) (h : c.isDigit = true) : (c == ',') = false := by
  cases hb : (c == ',')
  · rfl
  · have hce : c = ',' := by simpa using hb
    subst hce
    exact absurd h (by decide)

theorem renderNatAux_digits (f : ℕ) : ∀ (m : ℕ), ∀ c ∈ renderNatAux f m, c.isDigit = true := by
  induction f with
  | zero => intro m c hc; simp [renderNatAux] at hc
  | succ f ih =>
    intro m c hc
    simp only [renderNatAux] at hc
    split at hc
    · rename_i hm
      simp only [List.mem_singleton] at hc
      subst hc
      exact digitChar_isDigit m hm
    · rcases List.mem_append.mp hc with h1 | h2
      · exact ih (m / 10) c h1
      · simp only [List.mem_singleton] at h2
        subst h2
        exact digitChar_isDigit (m % 10) (Nat.mod_lt m (by norm_num))

theorem renderNatAux_ne_nil (f m : ℕ) : renderNatAux (f + 1) m ≠ [] := by
  simp only [renderNatAux]
  split
  · simp
  · simp

theorem parseNatDigits_append_one (l : List Char) (c : Char) :
    parseNatDigits (l ++ [c]) = 10 * parseNatDigits l + digitVal c := by
  unfold parseNatDigits
  rw [List.foldl_append]
  rfl

theorem parseNatDigits_renderNatAux (f : ℕ) :
    ∀ m, m < f → parseNatDigits (renderNatAux f m) = m := by
  induction f with
  | zero => intro m hm; exact absurd hm (Nat.not_lt_zero m)
  | succ f ih =>
    intro m hm
    simp only [renderNatAux]
    split
    · rename_i h10
      unfold parseNatDigits
      simp only [List.foldl]
      rw [digitVal_digitChar m h10]
      omega
    · rename_i h10
      rw [parseNatDigits_append_one]
      have hd : m / 10 < f := by
        have h1 : m / 10 < m := Nat.div_lt_self (by omega) (by norm_num)
        omega
      rw [ih (m / 10) hd, digitVal_digitChar (m % 10) (Nat.mod_lt m (by norm_num))]
      omega

theorem parseNatDigits_renderNat (m : ℕ) : parseNatDigits (renderNat m) = m :=
  parseNatDigits_renderNatAux (m + 1) m (Nat.lt_succ_self m)

theorem renderNat_digits (m : ℕ) : ∀ c ∈ renderNat m, c.isDigit = true :=
  renderNatAux_digits (m + 1) m

theorem renderNat_ne_nil (m : ℕ) : renderNat m ≠ [] := renderNatAux_ne_nil m m

theorem fracChars_digits (f : ℕ) (h : f < 100) :
    ∀ c ∈ fracChars f, c.isDigit = true := by
  intro c hc
  unfold fracChars at hc
  split at hc
  · simp only [List.mem_singleton] at hc
    subst hc
    decide
  · split at hc
    · simp only [List.mem_singleton] at hc
      subst hc
      exact digitChar_isDigit (f / 10) (by omega)
    · rcases (by simpa using hc : c = digitChar (f / 10) ∨ c = digitChar (f % 10)) with rfl | rfl
      · exact digitChar_isDigit (f / 10) (by omega)
      · exact digitChar_isDigit (f % 10) (Nat.mod_lt f (by norm_num))

theorem fracChars_val (f : ℕ) (h : f < 100) :
    ((parseNatDigits (fracChars f) : ℚ)) / 10 ^ (fracChars f).length = (f : ℚ) / 100 := by
  unfold fracChars
  split
  · rename_i h0
    subst h0
    have hv : parseNatDigits ['0'] = 0 := by decide
    rw [hv]
    norm_num
  · split
    · rename_i h10
      have hv : parseNatDigits [digitChar (f / 10)] = f / 10 := by
        unfold parseNatDigits
        simp only [List.foldl]
        rw [digitVal_digitChar (f / 10) (by omega)]
        omega
      rw [hv]
      have hfq : ((f : ℚ)) = 10 * ((f / 10 : ℕ) : ℚ) := by
        exact_mod_cast (by omega : f = 10 * (f / 10))
      rw [hfq]
      simp
      ring
    · rename_i h0 h10
      have hv : parseNatDigits [digitChar (f / 10), digitChar (f % 10)]
          = 10 * (f / 10) + f % 10 := by
        unfold parseNatDigits
        simp only [List.foldl]
        rw [digitVal_digitChar (f / 10) (by omega),
          digitVal_digitChar (f % 10) (Nat.mod_lt f (by norm_num))]
        omega
      rw [hv]
      have hmod : 10 * (f / 10) + f % 10 = f := by omega
      rw [hmod]
      norm_num

theorem digitDot_not_pySpace (c : Char) (h : (c.isDigit || c == '.') = true) :
    isPySpace c = false := by
  rcases (by simpa using h : c.isDigit = true ∨ c = '.') with h1 | rfl
  · exact digit_not_pySpace c h1
  · decide

theorem dropWhile_eq_self_of_all_false (p : Char → Bool) (l : List Char)
    (h : ∀ c ∈ l, p c = false) : l.dropWhile p = l := by
  cases l with
  | nil => rfl
  | cons c t =>
    rw [List.dropWhile_cons, h c (by simp)]
    simp

theorem pyStrip_eq_self (l : List Char) (h : ∀ c ∈ l, isPySpace c = false) :
    pyStrip l = l := by
  unfold pyStrip
  rw [dropWhile_eq_self_of_all_false _ _ h,
    dropWhile_eq_self_of_all_false _ _ (fun c hc => h c (by simpa using hc))]
  simp

theorem tryRangeAt_none_digitDot (c : Char) (cs : List Char)
    (hcs : ∀ x ∈ cs, (x.isDigit || x == '.') = true) :
    tryRangeAt (c :: cs) = none := by
  simp only [tryRangeAt]
  by_cases hc : c.isDigit = true
  · rw [if_pos hc]
    have hdrop : cs.dropWhile isRangeClass = [] := by
      rw [List.dropWhile_eq_nil_iff]
      intro x hx
      rcases (by simpa using hcs x hx : x.isDigit = true ∨ x = '.') with h1 | rfl
      · simp [isRangeClass, h1]
      · simp [isRangeClass]
    rw [hdrop]
    rfl
  · rw [if_neg hc]

theorem rangeFind_none_digitDot (l : List Char)
    (h : ∀ c ∈ l, (c.isDigit || c == '.') = true) : rangeFind l = none := by
  induction l with
  | nil => rfl
  | cons c cs ih =>
    have ht := tryRangeAt_none_digitDot c cs (fun x hx => h x (by simp [hx]))
    show (match tryRangeAt (c :: cs) with
      | some r => some r
      | none => if c == '\n' then none else rangeFind cs) = none
    rw [ht]
    have hcn : (c == '\n') = false := by
      cases hb : (c == '\n')
      · rfl
      · have hce : c = '\n' := by simpa using hb
        subst hce
        exact absurd (h '\n' (by simp)) (by decide)
    rw [hcn]
    simpa using ih (fun x hx => h x (by simp [hx]))

theorem isEmpty_append_cons_one (xs : List Char) (c : Char) (zs : List Char) :
    (xs ++ c :: zs).isEmpty = false := by
  cases xs <;> rfl

theorem round2_natDiv100 (m : ℕ) : round2 ((m : ℚ) / 100) = (m : ℚ) / 100 := by
  rw [round2_eq]
  have h1 : ((m : ℚ)) / 100 * 100 = ((m : ℤ) : ℚ) := by
    push_cast
    field_simp
  rw [h1, roundHalfEven_intCast]
  push_cast
  ring

theorem floatDD_render (m : ℕ) :
    floatDD (renderNat (m / 100) ++ '.' :: fracChars (m % 100)) = some ((m : ℚ) / 100) := by
  have hm100 : m % 100 < 100 := Nat.mod_lt m (by norm_num)
  have hipd := renderNat_digits (m / 100)
  have hfrd := fracChars_digits (m % 100) hm100
  have hall : (renderNat (m / 100) ++ '.' :: fracChars (m % 100)).all
      (fun c => c.isDigit || c == '.') = true := by
    rw [List.all_eq_true]
    intro c hc
    rcases List.mem_append.mp hc with h1 | h2
    · simp [hipd c h1]
    · rcases List.mem_cons.mp h2 with rfl | h3
      · decide
      · simp [hfrd c h3]
  have hany : (renderNat (m / 100) ++ '.' :: fracChars (m % 100)).any Char.isDigit = true := by
    rw [List.any_eq_true]
    rcases hrn : renderNat (m / 100) with _ | ⟨c0, t0⟩
    · exact absurd hrn (renderNat_ne_nil _)
    · refine ⟨c0, by simp, ?_⟩
      have hc0 := renderNat_digits (m / 100) c0 (by rw [hrn]; simp)
      simpa using hc0
  have hip0 : (renderNat (m / 100)).count '.' = 0 :=
    List.count_eq_zero.mpr (fun hmem => absurd (hipd '.' hmem) (by decide))
  have hfr0 : (fracChars (m % 100)).count '.' = 0 :=
    List.count_eq_zero.mpr (fun hmem => absurd (hfrd '.' hmem) (by decide))
  have hcount : (renderNat (m / 100) ++ '.' :: fracChars (m % 100)).count '.' ≤ 1 := by
    rw [List.count_append, hip0]
    simp [List.count_cons_self, hfr0]
  simp only [floatDD]
  rw [if_pos ⟨hall, hany, hcount⟩]
  have hsplit := takeWhile_append_stop (fun c => !(c == '.'))
    (renderNat (m / 100)) ('.' :: fracChars (m % 100))
    (fun c hc => by simp [digit_ne_dot c (hipd c hc)])
    (Or.inr ⟨'.', fracChars (m % 100), rfl, by decide⟩)
  rw [hsplit.1, hsplit.2]
  simp only [List.tail_cons]
  congr 1
  rw [qAdd_eq, qOfNat_eq, qDivN_eq, qOfNat_eq, parseNatDigits_renderNat]
  push_cast
  rw [fracChars_val (m % 100) hm100]
  have hdm : ((m : ℚ)) = 100 * ((m / 100 : ℕ) : ℚ) + ((m % 100 : ℕ) : ℚ) := by
    exact_mod_cast (by omega : m = 100 * (m / 100) + m % 100)
  rw [hdm]
  ring

theorem strFloat_reparse (m : ℕ) (hlt : ((m : ℚ)) / 100 < qPow10 16) :
    parse_number (.str (strFloat ((m : ℚ) / 100))) = some ((m : ℚ) / 100) := by
  have hq0 : ¬ (((m : ℚ)) / 100 < 0) := not_lt.mpr (by positivity)
  have hn : (⌊qMulN (((m : ℚ)) / 100) 100⌋).toNat = m := by
    rw [qMulN_eq]
    push_cast
    rw [div_mul_cancel₀ _ (by norm_num : (100 : ℚ) ≠ 0), Int.floor_natCast]
    simp
  have hs : strFloat (((m : ℚ)) / 100)
      = String.mk (renderNat (m / 100) ++ '.' :: fracChars (m % 100)) := by
    unfold strFloat
    rw [if_neg hq0]
    simp only [strFloatNN]
    rw [if_pos hlt, hn]
  rw [hs]
  show parseNumStr (renderNat (m / 100) ++ '.' :: fracChars (m % 100))
      = some (((m : ℚ)) / 100)
  have hm100 : m % 100 < 100 := Nat.mod_lt m (by norm_num)
  have hdd : ∀ c ∈ renderNat (m / 100) ++ '.' :: fracChars (m % 100),
      (c.isDigit || c == '.') = true := by
    intro c hc
    rcases List.mem_append.mp hc with h1 | h2
    · simp [renderNat_digits (m / 100) c h1]
    · rcases List.mem_cons.mp h2 with rfl | h3
      · decide
      · simp [fracChars_digits (m % 100) hm100 c h3]
  have hstrip : pyStrip (renderNat (m / 100) ++ '.' :: fracChars (m % 100))
      = renderNat (m / 100) ++ '.' :: fracChars (m % 100) :=
    pyStrip_eq_self _ (fun c hc => digitDot_not_pySpace c (hdd c hc))
  have hclean : (renderNat (m / 100) ++ '.' :: fracChars (m % 100)).filter
      (fun c => c.isDigit || c == '.' || c == ',')
      = renderNat (m / 100) ++ '.' :: fracChars (m % 100) := by
    rw [List.filter_eq_self]
    intro c hc
    rcases (by simpa using hdd c hc : c.isDigit = true ∨ c = '.') with h1 | rfl
    · simp [h1]
    · simp
  have hcountL : (renderNat (m / 100) ++ '.' :: fracChars (m % 100)).count '.' = 1 := by
    rw [List.count_append,
      List.count_eq_zero.mpr (fun hmem => absurd (renderNat_digits (m / 100) '.' hmem) (by decide))]
    simp [List.count_cons_self,
      List.count_eq_zero.mpr (fun hmem => absurd (fracChars_digits (m % 100) hm100 '.' hmem) (by decide))]
  have hnocomma : (renderNat (m / 100) ++ '.' :: fracChars (m % 100)).filter
      (fun c => !(c == ','))
      = renderNat (m / 100) ++ '.' :: fracChars (m % 100) := by
    rw [List.filter_eq_self]
    intro c hc
    rcases (by simpa using hdd c hc : c.isDigit = true ∨ c = '.') with h1 | rfl
    · simp [digit_ne_comma c h1]
    · decide
  simp only [parseNumStr]
  rw [hstrip]
  rw [if_neg (by simp [isEmpty_append_cons_one])]
  rw [rangeFind_none_digitDot _ hdd]
  split
  · rename_i g1 g2 heq
    cases heq
  · rw [hclean]
    rw [if_neg (by simp [isEmpty_append_cons_one])]
    rw [if_neg (by rw [hcountL]; norm_num)]
    rw [hnocomma, floatDD_render m]
    split
    · rename_i v heq
      injection heq with hv
      subst hv
      rw [round2_natDiv100]
    · rename_i heq
      cases heq

/-- Claim C8 (amended): for every string `s` that `parse_number` parses
to a value below 1e16, re-stringifying the result with Python `str()`
and reparsing gives the same value back —
`parse_number(str(parse_number(s))) == parse_number(s)`.  Below 1e16
`str()` renders the two-decimal result positionally (`"16500.0"`), a
form the cleaning branch parses exactly; from 1e16 on `str()` switches
to scientific notation, which `parse_number` mangles. -/
theorem spec2_c8_idempotent_amended (s : String) (q : ℚ)
    (h : parse_number (.str s) = some q) (hlt : q < qPow10 16) :
    parse_number (.str (strFloat q)) = some q := by
  obtain ⟨hq0, m, hm⟩ := parseNumStr_shape s.data q h
  subst hm
  exact strFloat_reparse m hlt

theorem spec2_c8_idempotent_amended_witness :
    parse_number (.str "16,500") = some 16500 ∧
      parse_number (.str (strFloat 16500)) = some 16500 :=
  ⟨by decide, spec2_c8_idempotent_amended "16,500" 16500 (by decide) (by decide)⟩

/-- Claim C8 counterexample: `"10000000000000000"` is a valid numeric
string parsing to 1e16, but `str(1e16)` is `"1e+16"`, whose reparse
strips the `e+` and reads 116.0: the idempotence equation fails there. -/
theorem spec2_c8_idempotent_cex :
    parse_number (.str "10000000000000000") = some (qPow10 16) ∧
    strFloat (qPow10 16) = "1e+16" ∧
    parse_number (.str (strFloat (qPow10 16))) = some 116 ∧
    (116 : ℚ) ≠ qPow10 16 := by
  refine ⟨by decide, by decide, by decide, by decide⟩
